import Mathlib

/-!
# Frame assembly and dispatch of the STOMP server (`src/lib/stomp.c`)

A shallow embedding of `src/lib/stomp.c` and `include/kazusa/stomp.h`.

* C strings and character buffers are `List Char`; the list is the memory that
  may be read starting at the pointer, so an access past the end of the list,
  a `memcpy` longer than its destination and a call through a null function
  pointer are undefined behaviour, written `Res.fault`.
* An intrusive `struct list_head` list is the `List` of its members, oldest
  first; `list_add_tail` appends and `list_del` of the first entry drops the head.
  The list macros are those of `kazusa/list.h`, which is not among the sources;
  they are taken at the level of lists, as the spec describes the bucket and the
  line lists. A walk with `list_for_each_entry` whose body frees the member it
  stands on reads freed memory at its step, which is undefined as well.
* `malloc` reads its outcome from an explicit list of booleans.
* The mutex of the bucket has no effect on a sequential run and is left out, and
  so are the diagnostics printed with `printf` and `perror`.
-/

namespace Stomp

/-! ## Results of running C code -/

/-- Outcome of a piece of C code: a value, undefined behaviour, or a loop of the
model stopped by its iteration budget. -/
inductive Res (α : Type) where
  | ok : α → Res α
  | fault : Res α
  | timeout : Res α
  deriving DecidableEq

/-- Sequencing of two computations; a fault or a timeout of the first one ends the run. -/
def Res.bind {α β : Type} (x : Res α) (f : α → Res β) : Res β :=
  match x with
  | .ok a => f a
  | .fault => .fault
  | .timeout => .timeout

/-! ## Constants -/

/-- The string terminator, the character with code 0. -/
def NUL : Char := Char.ofNat 0

/-- The line terminator of the protocol, the character written "\n" in the source. -/
def LF : Char := Char.ofNat 10

/-- The macro `FNAME_LEN` of `stomp.h`. -/
def FNAME_LEN : Nat := 64

/-- The macro `STATUS_BORN` of `stomp.h`. -/
def STATUS_BORN : Nat := 1 <<< 0
/-- The macro `STATUS_INPUT_HEADER` of `stomp.h`. -/
def STATUS_INPUT_HEADER : Nat := 1 <<< 1
/-- The macro `STATUS_INPUT_BODY` of `stomp.h`. -/
def STATUS_INPUT_BODY : Nat := 1 <<< 2
/-- The macro `STATUS_IN_BUCKET` of `stomp.h`. -/
def STATUS_IN_BUCKET : Nat := 1 <<< 3
/-- The macro `STATUS_IN_QUEUE` of `stomp.h`. -/
def STATUS_IN_QUEUE : Nat := 1 <<< 4

/-- Modelled from the spec: the return code `RET_SUCCESS`, whose definition
(`kazusa/common.h`) is missing; the spec only has success and error as distinct
results, the values follow `CU_SUCCESS` of `tests/unit/unit.h`. -/
def RET_SUCCESS : Int := 0

/-- Modelled from the spec: the return code `RET_ERROR`, whose definition
(`kazusa/common.h`) is missing; the values follow `CU_ERROR` of `tests/unit/unit.h`. -/
def RET_ERROR : Int := -1

/-! ## Data model -/

/-- Modelled from the spec: the type `linedata_t` of one header or body line, whose
declaration is missing: a character buffer `data` of capacity `LD_MAX` ("each
appended line is copied into a fixed-capacity buffer"). The link `l_frame` is the
position of the node in the list of its frame. -/
structure linedata_t where
  data : List Char
  deriving DecidableEq

/-- The type `frame_t` as `stomp.c` uses it: the buffer `name` of `FNAME_LEN`
characters, `sock`, `status`, the header lines `h_attrs` and the body lines
`h_data`. The link `l_bucket` is the position of the frame in the bucket. -/
structure frame_t where
  name : List Char
  sock : Int
  status : Nat
  h_attrs : List linedata_t
  h_data : List linedata_t
  deriving DecidableEq

/-- Modelled from the spec: the macro `CLR_STATUS`, whose definition is missing:
"clear the phase flags". -/
def CLR_STATUS (frame : frame_t) : frame_t :=
  { frame with status := 0 }

/-- Modelled from the spec: the macro `SET_STATUS`, whose definition is missing:
it sets the flag `s` in the status of the frame. -/
def SET_STATUS (frame : frame_t) (s : Nat) : frame_t :=
  { frame with status := frame.status ||| s }

/-- Modelled from the spec: the macro `GET_STATUS`, whose definition is missing:
it tests the flag `s` in the status of the frame. -/
def GET_STATUS (frame : frame_t) (s : Nat) : Bool :=
  (frame.status &&& s) != 0

/-! ## The C library -/

/-- One call of `malloc`: the head of the list of outcomes says whether it
succeeds; once the list is used up every call succeeds. -/
def malloc : List Bool → Bool × List Bool
  | [] => (true, [])
  | b :: heap => (b, heap)

/-- The call `memcpy(dst, src, n)`: the first `n` characters of `src` replace the
first `n` characters of the buffer `dst`. Copying more than `dst` holds, or more
than `src` has, is undefined. -/
def memcpy (dst src : List Char) (n : Nat) : Res (List Char) :=
  if n ≤ dst.length ∧ n ≤ src.length then .ok (src.take n ++ dst.drop n) else .fault

/-- The call `strlen(s)`: the number of characters before the first NUL; a buffer
without a NUL is read past its end. -/
def strlen : List Char → Res Nat
  | [] => .fault
  | c :: cs => if c = NUL then .ok 0 else (strlen cs).bind fun n => .ok (n + 1)

/-- The call `strncmp(a, b, n)`: the difference of the first characters that
differ among the first `n`, 0 when there is none before `n` characters or before a
common NUL. -/
def strncmp : List Char → List Char → Nat → Res Int
  | _, _, 0 => .ok 0
  | [], _, _ + 1 => .fault
  | _ :: _, [], _ + 1 => .fault
  | a :: as, b :: bs, n + 1 =>
    if a ≠ b then .ok ((a.toNat : Int) - (b.toNat : Int))
    else if a = NUL then .ok 0
    else strncmp as bs n

/-- The call `strtok(pointer, "\n")` with a non-null `pointer`, on the memory
`s` readable from `pointer`. It skips the leading line terminators; at a NUL it
returns NULL (`none`); otherwise the token runs up to the next line terminator or
NUL, which it overwrites with NUL. The result is the offset of the token from
`pointer` and the memory from `pointer` after the write. -/
def strtok (s : List Char) : Res (Option (Nat × List Char)) :=
  let k := (s.takeWhile fun c => c = LF).length
  match s.drop k with
  | [] => .fault
  | c :: _ =>
    if c = NUL then .ok none
    else
      let tok := (s.drop k).takeWhile fun c => c ≠ LF ∧ c ≠ NUL
      match (s.drop k).dropWhile fun c => c ≠ LF ∧ c ≠ NUL with
      | [] => .fault
      | _ :: rest => .ok (some (k, s.take k ++ tok ++ NUL :: rest))

/-! ## `stomp.c` -/

/-- The function `alloc_frame`: NULL when `malloc` fails, else a frame with a
zeroed name, empty lists, the given `sock` and status `STATUS_BORN`. -/
def alloc_frame (sock : Int) (heap : List Bool) : Option frame_t × List Bool :=
  match malloc heap with
  | (false, heap1) => (none, heap1)
  | (true, heap1) =>
    (some { name := List.replicate FNAME_LEN NUL, sock := sock, status := STATUS_BORN,
            h_attrs := [], h_data := [] }, heap1)

/-- The function `frame_setname`: `namelen` is clamped to `FNAME_LEN` but the copy
into `frame->name` is made with `len`. -/
def frame_setname (data : List Char) (len : Nat) (frame : frame_t) : Res frame_t :=
  let namelen := if len > FNAME_LEN then FNAME_LEN else len
  let _unused := namelen
  (memcpy frame.name data len).bind fun name =>
    .ok (SET_STATUS (CLR_STATUS { frame with name := name }) STATUS_INPUT_HEADER)

/-- The function `frame_setdata`: `attrlen` is clamped to `LD_MAX` but the copy into
the new zeroed node is made with `len`; the node is added at the tail of `head`.
A failed `malloc` gives `RET_ERROR` and leaves the list as it is. -/
def frame_setdata (LD_MAX : Nat) (data : List Char) (len : Nat) (head : List linedata_t)
    (heap : List Bool) : Res (Int × List linedata_t × List Bool) :=
  let attrlen := if len > LD_MAX then LD_MAX else len
  let _unused := attrlen
  match malloc heap with
  | (false, heap1) => .ok (RET_ERROR, head, heap1)
  | (true, heap1) =>
    (memcpy (List.replicate LD_MAX NUL) data len).bind fun buf =>
      .ok (RET_SUCCESS, head ++ [{ data := buf }], heap1)

/-- The body of the loop of `frame_creating` for one `line` of length `attrlen`:
the name for a born frame, a header line or a body line otherwise; the result of
`frame_setdata` is dropped as in the source. -/
def frame_creating_line (LD_MAX : Nat) (line : List Char) (attrlen : Nat) (frame : frame_t)
    (heap : List Bool) : Res (frame_t × List Bool) :=
  if GET_STATUS frame STATUS_BORN then
    (frame_setname line attrlen frame).bind fun frame1 => .ok (frame1, heap)
  else if GET_STATUS frame STATUS_INPUT_HEADER then
    (frame_setdata LD_MAX line attrlen frame.h_attrs heap).bind fun r =>
      .ok ({ frame with h_attrs := r.2.1 }, r.2.2)
  else if GET_STATUS frame STATUS_INPUT_BODY then
    (frame_setdata LD_MAX line attrlen frame.h_data heap).bind fun r =>
      .ok ({ frame with h_data := r.2.1 }, r.2.2)
  else .ok (frame, heap)

/-- The loop of `frame_creating`, `pointer` being the memory readable from the
loop variable of that name:
`for(pointer = recv_data; line = strtok(pointer, "\n"); pointer += strlen(line) + 1)`.
Every iteration calls `strtok` afresh on `pointer`, and the step adds
`strlen(line) + 1` to `pointer`, not to `line`. -/
def frame_creating_loop (LD_MAX : Nat) :
    Nat → List Char → frame_t → List Bool → Res (frame_t × List Bool)
  | 0, _, _, _ => .timeout
  | fuel + 1, pointer, frame, heap =>
    (strtok pointer).bind fun t =>
      match t with
      | none => .ok (frame, heap)
      | some (k, mem) =>
        let line := mem.drop k
        (strlen line).bind fun attrlen =>
          (frame_creating_line LD_MAX line attrlen frame heap).bind fun r =>
            (strlen line).bind fun step =>
              frame_creating_loop LD_MAX fuel (mem.drop (step + 1)) r.1 r.2

/-- The function `frame_creating`; its parameter `len` is not used by the source.
Each iteration moves `pointer` forward, so one more iteration than the memory has
characters is never reached. -/
def frame_creating (LD_MAX : Nat) (recv_data : List Char) (len : Int) (frame : frame_t)
    (heap : List Bool) : Res (frame_t × List Bool) :=
  let _unused := len
  frame_creating_loop LD_MAX (recv_data.length + 1) recv_data frame heap

/-- The function `frame_create_finish`: the status becomes `STATUS_IN_BUCKET` and
the frame is added at the tail of the bucket. -/
def frame_create_finish (frame : frame_t) (bucket : List frame_t) : List frame_t :=
  bucket ++ [SET_STATUS (CLR_STATUS frame) STATUS_IN_BUCKET]

/-- The state a call of `stomp_recv_data` works on and leaves: the cache slot
`*cache`, the bucket `stomp_frame_bucket` and the outcomes of the calls of `malloc`
to come. -/
structure recv_state where
  cache : Option frame_t
  bucket : List frame_t
  heap : List Bool
  deriving DecidableEq

/-- The test `len == 1 && *recv_data == '\n'` of `stomp_recv_data`; `*recv_data` is
read only when `len == 1`. -/
def is_boundary (recv_data : List Char) (len : Int) : Res Bool :=
  if len = 1 then
    match recv_data with
    | [] => .fault
    | c :: _ => .ok (decide (c = LF))
  else .ok false

/-- The function `stomp_recv_data`: its return value and the state it leaves. -/
def stomp_recv_data (LD_MAX : Nat) (recv_data : List Char) (len : Int) (sock : Int)
    (cache : Option frame_t) (bucket : List frame_t) (heap : List Bool) :
    Res (Int × recv_state) :=
  let alloc : Option frame_t × List Bool :=
    match cache with
    | some frame => (some frame, heap)
    | none => alloc_frame sock heap
  match alloc with
  | (none, heap1) => .ok (RET_ERROR, { cache := none, bucket := bucket, heap := heap1 })
  | (some frame, heap1) =>
    if len = 0 then
      .ok (RET_SUCCESS,
        { cache := none, bucket := frame_create_finish frame bucket, heap := heap1 })
    else
      (is_boundary recv_data len).bind fun b =>
        if b then
          .ok (RET_SUCCESS,
            { cache := some (SET_STATUS (CLR_STATUS frame) STATUS_INPUT_BODY),
              bucket := bucket, heap := heap1 })
        else
          (frame_creating LD_MAX recv_data len frame heap1).bind fun r =>
            .ok (RET_SUCCESS, { cache := some r.1, bucket := bucket, heap := r.2 })

/-- The function `get_frame_from_bucket`: the first frame of the bucket, unlinked,
or NULL when the bucket is empty. The result is the frame and the bucket left. -/
def get_frame_from_bucket : List frame_t → Option frame_t × List frame_t
  | [] => (none, [])
  | frame :: bucket => (some frame, bucket)

/-- The memory of a string literal: its characters and the closing NUL. -/
def cstring (s : String) : List Char := s.toList ++ [NUL]

/-- The type `stomp_handler_t`: the string `name` and the function pointer
`handler`, `none` for NULL. `H` names the functions a pointer can hold. -/
structure stomp_handler_t (H : Type) where
  name : List Char
  handler : Option H
  deriving DecidableEq

/-- The functions the table `stomp_handlers` points to. -/
inductive handler_fn where
  | handler_stomp_connect
  deriving DecidableEq

/-- The table `stomp_handlers`; the closing entry `{0}` is the end of the list. -/
def stomp_handlers : List (stomp_handler_t handler_fn) :=
  [ { name := cstring "SEND", handler := none },
    { name := cstring "SUBSCRIBE", handler := none },
    { name := cstring "CONNECT", handler := some .handler_stomp_connect },
    { name := cstring "DISCONNECT", handler := none },
    { name := cstring "UNSUBSCRIBE", handler := none },
    { name := cstring "BEGIN", handler := none },
    { name := cstring "COMMIT", handler := none },
    { name := cstring "ABORT", handler := none },
    { name := cstring "ACK", handler := none },
    { name := cstring "NACK", handler := none } ]

/-- The loop of `handle_frame` over a table: at the first entry with
`strncmp(frame->name, h->name, strlen(h->name)) == 0` it calls `(*h->handler)(frame)`
and breaks. The result lists the functions called; the call through a null
`handler` is undefined. -/
def handle_frame_scan {H : Type} (frame : frame_t) : List (stomp_handler_t H) → Res (List H)
  | [] => .ok []
  | h :: handlers =>
    (strlen h.name).bind fun n =>
      (strncmp frame.name h.name n).bind fun c =>
        if c = 0 then
          match h.handler with
          | none => .fault
          | some fn => .ok [fn]
        else handle_frame_scan frame handlers

/-- The function `handle_frame`: the scan of `stomp_handlers`. -/
def handle_frame (frame : frame_t) : Res (List handler_fn) :=
  handle_frame_scan frame stomp_handlers

/-- Modelled from the spec: the type `stomp_header_handler_t`, whose declaration is
missing: the string `name` and the sub-handler `handler`, which takes the rest of
the header line and the context and returns a code ("sub-handler signature:
(header_value, context) -> Result"); here it also returns the context it leaves. -/
structure stomp_header_handler_t (σ : Type) where
  name : List Char
  handler : Option (List Char → σ → Int × σ)

/-- One call made by `iterate_header`: the index `i` of the entry, the argument
`line->data + strlen(h->name)` and the value the sub-handler returned. -/
structure header_call where
  entry : Nat
  arg : List Char
  ret : Int
  deriving DecidableEq

/-- The inner loop of `iterate_header` for one line, from entry `i` on: every entry
with `strncmp(line->data, h->name, strlen(h->name)) == 0` is called, and the loop
goes on to the next entry unless the call returned `RET_ERROR`. The first component
of the result says whether the function returned `RET_ERROR` there. -/
def iterate_header_line {σ : Type} (line : linedata_t) :
    Nat → List (stomp_header_handler_t σ) → σ → List header_call →
      Res (Bool × σ × List header_call)
  | _, [], data, calls => .ok (false, data, calls)
  | i, h :: handlers, data, calls =>
    (strlen h.name).bind fun n =>
      (strncmp line.data h.name n).bind fun c =>
        if c = 0 then
          match h.handler with
          | none => .fault
          | some fn =>
            let r := fn (line.data.drop n) data
            let calls1 := calls ++ [{ entry := i, arg := line.data.drop n, ret := r.1 }]
            if r.1 = RET_ERROR then .ok (true, r.2, calls1)
            else iterate_header_line line (i + 1) handlers r.2 calls1
        else iterate_header_line line (i + 1) handlers data calls

/-- The outer loop of `iterate_header` over the header lines, with the calls made
so far. -/
def iterate_header_loop {σ : Type} (handlers : List (stomp_header_handler_t σ)) :
    List linedata_t → σ → List header_call → Res (Int × σ × List header_call)
  | [], data, calls => .ok (RET_SUCCESS, data, calls)
  | line :: h_header, data, calls =>
    (iterate_header_line line 0 handlers data calls).bind fun r =>
      if r.1 then .ok (RET_ERROR, r.2.1, r.2.2)
      else iterate_header_loop handlers h_header r.2.1 r.2.2

/-- The function `iterate_header`: its return value, the context the sub-handlers
leave and the calls it made, in order. -/
def iterate_header {σ : Type} (h_header : List linedata_t)
    (handlers : List (stomp_header_handler_t σ)) (data : σ) :
    Res (Int × σ × List header_call) :=
  iterate_header_loop handlers h_header data []

/-! ## Sequences of calls -/

/-- One call of `stomp_recv_data` by the transport: the memory of the chunk, its
length `len` and the socket. -/
structure chunk where
  recv_data : List Char
  len : Int
  sock : Int
  deriving DecidableEq

/-- The calls of `stomp_recv_data` for a list of chunks on one cache slot, each
call starting from the state the one before left: the state after the last call. -/
def recv_all (LD_MAX : Nat) : List chunk → recv_state → Res recv_state
  | [], st => .ok st
  | c :: cs, st =>
    (stomp_recv_data LD_MAX c.recv_data c.len c.sock st.cache st.bucket st.heap).bind fun r =>
      recv_all LD_MAX cs r.2

/-- The chunk of one line: the line, its line terminator and the closing NUL. -/
def line_chunk (sock : Int) (line : List Char) : chunk :=
  { recv_data := line ++ [LF, NUL], len := line.length + 1, sock := sock }

/-- The chunk that is the lone line terminator, of length 1. -/
def boundary_chunk (sock : Int) : chunk :=
  { recv_data := [LF, NUL], len := 1, sock := sock }

/-- The end-of-frame chunk, of length 0. -/
def eof_chunk (sock : Int) : chunk :=
  { recv_data := [NUL], len := 0, sock := sock }

/-- The string a buffer holds: its characters before the first NUL. -/
def cstr (buf : List Char) : List Char :=
  buf.takeWhile fun c => c ≠ NUL

/-- The buffer of capacity `cap` that holds `line` and is zero after it. -/
def padded (cap : Nat) (line : List Char) : List Char :=
  line ++ List.replicate (cap - line.length) NUL

/-- Successive calls of `get_frame_from_bucket`: the frames the first `n` calls
return (`none` for NULL) and the bucket left. -/
def get_frames : Nat → List frame_t → List (Option frame_t) × List frame_t
  | 0, bucket => ([], bucket)
  | n + 1, bucket =>
    let r := get_frame_from_bucket bucket
    let rs := get_frames n r.2
    (r.1 :: rs.1, rs.2)

/-- Successive calls of `frame_create_finish` for a list of frames. -/
def finish_all : List frame_t → List frame_t → List frame_t
  | [], bucket => bucket
  | frame :: frames, bucket => finish_all frames (frame_create_finish frame bucket)

/-- A line of the protocol: not empty, without line terminator and without NUL. -/
def is_line (l : List Char) : Prop :=
  l ≠ [] ∧ ∀ c ∈ l, c ≠ LF ∧ c ≠ NUL

/-- The chunks of one frame: the name, the header lines, the lone line terminator,
the body lines and the end of frame; the first call passes `sock`, the later
ones `sock1`. -/
def frame_chunks (sock sock1 : Int) (n : List Char) (hs bs : List (List Char)) : List chunk :=
  line_chunk sock n :: (hs.map (line_chunk sock1) ++
    boundary_chunk sock1 :: (bs.map (line_chunk sock1) ++ [eof_chunk sock1]))

/-- The call a matched entry gets: through a null `handler` it is undefined,
otherwise the function is called once. -/
def call_handler {H : Type} (h : stomp_handler_t H) : Res (List H) :=
  match h.handler with
  | none => .fault
  | some fn => .ok [fn]

/-- The first entry of a table whose name is a prefix of the name of the frame. -/
def first_match {H : Type} (frame : frame_t) (handlers : List (stomp_handler_t H)) :
    Option (stomp_handler_t H) :=
  handlers.find? fun h => (cstr h.name).isPrefixOf (cstr frame.name)

/-- Dispatch as the spec words it: the call goes to the first entry whose name is a
prefix of the name of the frame, and to none when there is no such entry. -/
def dispatch_first_match {H : Type} (frame : frame_t) (handlers : List (stomp_handler_t H)) :
    Res (List H) :=
  match first_match frame handlers with
  | none => .ok []
  | some h => call_handler h

/-- A frame out of the bucket whose name buffer holds `n`. -/
def named_frame (n : String) : frame_t :=
  { name := padded FNAME_LEN n.toList, sock := 0, status := STATUS_IN_BUCKET,
    h_attrs := [], h_data := [] }

/-- The status of a frame under assembly: one of the three phase flags. -/
def assembling (s : Nat) : Prop :=
  s = STATUS_BORN ∨ s = STATUS_INPUT_HEADER ∨ s = STATUS_INPUT_BODY

/-- What the lines of a chunk may do to a frame under assembly: the status stays a
phase flag and does not go down, the sock stays; in the header phase only the
header lines grow, in the body phase only the body lines grow. -/
def frame_grows (f g : frame_t) : Prop :=
  assembling g.status ∧ f.status ≤ g.status ∧ g.sock = f.sock ∧
  (f.status = STATUS_INPUT_HEADER → g.status = STATUS_INPUT_HEADER ∧ g.name = f.name ∧
    g.h_data = f.h_data ∧ f.h_attrs <+: g.h_attrs) ∧
  (f.status = STATUS_INPUT_BODY → g.status = STATUS_INPUT_BODY ∧ g.name = f.name ∧
    g.h_attrs = f.h_attrs ∧ f.h_data <+: g.h_data)

/-- The chunk of one input line of the body: a blank line (`none`) arrives as the
lone line terminator, another line as its line chunk. -/
def body_chunk (sock : Int) : Option (List Char) → chunk
  | none => boundary_chunk sock
  | some l => line_chunk sock l

/-- A frame in the body phase, named SEND, holding the body line "hello". -/
def body_frame : frame_t :=
  { name := padded FNAME_LEN "SEND".toList, sock := 3, status := STATUS_INPUT_BODY,
    h_attrs := [], h_data := [{ data := padded 16 "hello".toList }] }

/-- A frame in the header phase, named CONNECT, without header lines. -/
def header_frame : frame_t :=
  { name := padded FNAME_LEN "CONNECT".toList, sock := 3, status := STATUS_INPUT_HEADER,
    h_attrs := [], h_data := [] }

/-- The frame `header_frame` once it has the header lines host:localhost and hello. -/
def header_frame_fed : frame_t :=
  { header_frame with
    h_attrs := [{ data := padded 16 "host:localhost".toList },
                { data := padded 16 "hello".toList }] }

/-- The states that the calls of `stomp_recv_data` for a list of chunks leave, one
for each call that returns, up to the first call that does not. -/
def recv_states (LD_MAX : Nat) : List chunk → recv_state → List recv_state
  | [], _ => []
  | c :: cs, st =>
    match stomp_recv_data LD_MAX c.recv_data c.len c.sock st.cache st.bucket st.heap with
    | .ok r => r.2 :: recv_states LD_MAX cs r.2
    | .fault => []
    | .timeout => []

/-- Where a frame is: a frame that is in the cache slot while the bucket holds
`pos` frames is found there until it is enqueued, and then at position `pos` of the
bucket, `frame_create_finish` adding at the tail. -/
def tracked (pos : Nat) (st : recv_state) : Option frame_t :=
  match st.bucket[pos]? with
  | some f => some f
  | none => st.cache

/-- The frame followed from position `pos` is `f`: either it is in the cache slot,
under assembly, or it is in the bucket with the status `STATUS_IN_BUCKET`. -/
def tracked_is (pos : Nat) (st : recv_state) (f : frame_t) : Prop :=
  tracked pos st = some f ∧
    ((st.bucket.length = pos ∧ st.cache = some f ∧ assembling f.status) ∨
      (pos < st.bucket.length ∧ f.status = STATUS_IN_BUCKET))

/-- The entries of a table, from index `i` on, whose name is a prefix of a header
line, each with the rest of the line after the name, in table order. -/
def line_matches {σ : Type} (line : linedata_t) :
    Nat → List (stomp_header_handler_t σ) → List (Nat × List Char)
  | _, [] => []
  | i, h :: handlers =>
    if (cstr h.name).isPrefixOf (cstr line.data) then
      (i, line.data.drop (cstr h.name).length) :: line_matches line (i + 1) handlers
    else line_matches line (i + 1) handlers

/-- The matching entries of all the header lines, the lines taken in list order. -/
def all_matches {σ : Type} (handlers : List (stomp_header_handler_t σ)) :
    List linedata_t → List (Nat × List Char)
  | [] => []
  | line :: h_header => line_matches line 0 handlers ++ all_matches handlers h_header

/-- The entry and the argument of a call. -/
def header_call.key (c : header_call) : Nat × List Char := (c.entry, c.arg)

/-- A well-formed call of `iterate_header`: every entry has a sub-handler and a
name that ends with NUL and is not longer than the buffers of the header lines. -/
def header_table_ok {σ : Type} (handlers : List (stomp_header_handler_t σ))
    (h_header : List linedata_t) : Prop :=
  ∀ h ∈ handlers, h.handler ≠ none ∧ ∃ p r, h.name = p ++ NUL :: r ∧ (∀ c ∈ p, c ≠ NUL) ∧
    ∀ line ∈ h_header, p.length ≤ line.data.length

/-- What a run of the calls says: `stop` tells whether it ended on a call that
returned `RET_ERROR`. No call before the last one returned `RET_ERROR`; the calls
are the matching entries in order, all of them unless the run stopped. -/
def calls_ok (stop : Bool) (new : List header_call) (expected : List (Nat × List Char)) : Prop :=
  new.map header_call.key <+: expected ∧
  (stop = false → (∀ c ∈ new, c.ret ≠ RET_ERROR) ∧ new.map header_call.key = expected) ∧
  (stop = true → ∃ init last, new = init ++ [last] ∧ last.ret = RET_ERROR ∧
    ∀ c ∈ init, c.ret ≠ RET_ERROR)

/-- A sub-handler that accepts a version and counts it in the context. -/
def accept_version (arg : List Char) (data : Nat) : Int × Nat :=
  if arg.isEmpty then (RET_ERROR, data) else (RET_SUCCESS, data + 1)

/-- A sub-handler that rejects every host. -/
def reject_host (_arg : List Char) (data : Nat) : Int × Nat :=
  (RET_ERROR, data + 100)

/-- A table of two sub-handlers, for the header lines accept-version and host. -/
def connect_headers : List (stomp_header_handler_t Nat) :=
  [ { name := cstring "accept-version:", handler := some accept_version },
    { name := cstring "host:", handler := some reject_host } ]

/-- Three header lines: a version, a host and a second version. -/
def three_headers : List linedata_t :=
  [ { data := padded 32 "accept-version:1.2".toList },
    { data := padded 32 "host:localhost".toList },
    { data := padded 32 "accept-version:1.1".toList } ]

/-- A table of two sub-handlers in which the first name is a prefix of the second. -/
def overlapping_headers : List (stomp_header_handler_t Nat) :=
  [ { name := cstring "accept", handler := some accept_version },
    { name := cstring "accept-version:", handler := some accept_version } ]

/-- The frame `alloc_frame` makes for `sock`, once `frame_create_finish` has set
its status: a zeroed name, no header line, no body line. -/
def empty_queued_frame (sock : Int) : frame_t :=
  { name := List.replicate FNAME_LEN NUL, sock := sock, status := STATUS_IN_BUCKET,
    h_attrs := [], h_data := [] }

/-- The invariant of the statuses: a frame in the cache slot has exactly one of the
three phase flags, every frame of the bucket has exactly `STATUS_IN_BUCKET`. -/
def status_ok (st : recv_state) : Prop :=
  (∀ f, st.cache = some f → assembling f.status) ∧
  ∀ f ∈ st.bucket, f.status = STATUS_IN_BUCKET

/-- The state after the chunks of the frame CONNECT with one header line and one
body line, followed by the first line SEND of the next frame. -/
def two_frames_state : recv_state :=
  { cache := some { named_frame "SEND" with sock := 3, status := STATUS_INPUT_HEADER },
    bucket := [{ name := padded FNAME_LEN "CONNECT".toList, sock := 3,
                 status := STATUS_IN_BUCKET,
                 h_attrs := [{ data := padded 16 "host:localhost".toList }],
                 h_data := [{ data := padded 16 "hello".toList }] }],
    heap := [] }

/-- The entries of a table whose name is a prefix of the name of the frame. -/
def matching_entries {H : Type} (frame : frame_t) (handlers : List (stomp_handler_t H)) :
    List (stomp_handler_t H) :=
  handlers.filter fun h => (cstr h.name).isPrefixOf (cstr frame.name)

/-- The lines of a chunk, each followed by the line terminator. -/
def join_lines : List (List Char) → List Char
  | [] => []
  | l :: ls => l ++ LF :: join_lines ls

/-- The one chunk that holds all the lines, each followed by the line terminator,
and the closing NUL. -/
def lines_chunk (sock : Int) (lines : List (List Char)) : chunk :=
  { recv_data := join_lines lines ++ [NUL], len := (join_lines lines).length, sock := sock }

/-- The body of the loop of `frame_creating` run on each line of a list, in order. -/
def lines_run (LD_MAX : Nat) : List (List Char) → frame_t → List Bool →
    Res (frame_t × List Bool)
  | [], frame, heap => .ok (frame, heap)
  | l :: ls, frame, heap =>
    (frame_creating_line LD_MAX l l.length frame heap).bind fun r => lines_run LD_MAX ls r.1 r.2

/-- The objects handed to `free`, in the order of the calls: the line nodes and the
frames. A run that frees a line node is undefined (see `free_each_entry`), so in
every run that returns `lines` is as it was given. -/
structure free_log where
  lines : List linedata_t
  frames : List frame_t
  deriving DecidableEq

/-- Modelled from the spec: the macro `list_del` of `kazusa/list.h`, which is
missing, on the link `l_bucket` of a frame ("pop from head and unlink", "remove and
free every member"). Where `stomp.c` unlinks a frame that is in the bucket, the
frame is the first one, so `linked` says whether the frame is still there, at the
head; unlinking a frame that has been unlinked before leaves the bucket as it is. -/
def list_del (linked : Bool) (bucket : List frame_t) : List frame_t :=
  if linked then bucket.tail else bucket

/-- Modelled from the spec: the macro `list_for_each_entry` of `kazusa/list.h`,
which is missing, with the body `free(data)` that `free_frame` gives it. It is the
walk that is not safe against the removal of the member it stands on (`cleanup`
takes `list_for_each_entry_safe` where it unlinks the member): to step, it reads
the link of that member, which the body has just freed ("iterating and freeing
attribute/body line nodes without unlinking them"). On an empty list the body never
runs; on every other list the first step reads freed memory, which is undefined. -/
def free_each_entry : List linedata_t → free_log → Res free_log
  | [], log => .ok log
  | _ :: _, _ => .fault

/-- The function `free_frame`: the loop that frees the header lines, the loop that
frees the body lines, then the frame is unlinked from the bucket and freed. -/
def free_frame (frame : frame_t) (linked : Bool) (bucket : List frame_t) (log : free_log) :
    Res (List frame_t × free_log) :=
  (free_each_entry frame.h_attrs log).bind fun log1 =>
    (free_each_entry frame.h_data log1).bind fun log2 =>
      .ok (list_del linked bucket, { log2 with frames := log2.frames ++ [frame] })

/-- The loop of `cleanup` over the frames `todo` still to visit. Modelled from the
spec: `list_for_each_entry_safe`, of the missing `kazusa/list.h`, visits every
member of the bucket, in order, and allows the member visited to be unlinked; the
frames before it being gone, the frame visited is at the head of the bucket. -/
def cleanup_loop : List frame_t → List frame_t → free_log → Res (List frame_t × free_log)
  | [], bucket, log => .ok (bucket, log)
  | frame :: todo, bucket, log =>
    (free_frame frame true bucket log).bind fun r => cleanup_loop todo r.1 r.2

/-- The function `cleanup`; its parameter `data` is not used. The result is the
return value, the bucket and the objects freed. -/
def cleanup (bucket : List frame_t) (log : free_log) : Res (Int × List frame_t × free_log) :=
  (cleanup_loop bucket bucket log).bind fun r => .ok (RET_SUCCESS, r.1, r.2)

/-- One turn of the loop of `stomp_manager`: the frame `get_frame_from_bucket`
returns, if any, is passed to `handle_frame` and then to `free_frame`. The result
is the functions called, the bucket and the objects freed; the call `sleep(1)` is
left out. -/
def stomp_manager_step (bucket : List frame_t) (log : free_log) :
    Res (List handler_fn × List frame_t × free_log) :=
  let r := get_frame_from_bucket bucket
  match r.1 with
  | some frame =>
    (handle_frame frame).bind fun calls =>
      (free_frame frame false r.2 log).bind fun q => .ok (calls, q.1, q.2)
  | none => .ok ([], r.2, log)

/-- The state after as many turns of the loop of `stomp_manager` as given: the
functions called in each turn, the bucket and the objects freed. -/
def stomp_manager_turns : Nat → List frame_t → free_log →
    Res (List (List handler_fn) × List frame_t × free_log)
  | 0, bucket, log => .ok ([], bucket, log)
  | n + 1, bucket, log =>
    (stomp_manager_step bucket log).bind fun r =>
      (stomp_manager_turns n r.2.1 r.2.2).bind fun rs =>
        .ok (r.1 :: rs.1, rs.2.1, rs.2.2)

/-! ## Basic facts -/

@[simp] theorem Res.bind_ok {α β : Type} (a : α) (f : α → Res β) :
    (Res.ok a).bind f = f a := rfl

@[simp] theorem Res.bind_fault {α β : Type} (f : α → Res β) :
    (Res.fault : Res α).bind f = .fault := rfl

@[simp] theorem Res.bind_timeout {α β : Type} (f : α → Res β) :
    (Res.timeout : Res α).bind f = .timeout := rfl

theorem LF_ne_NUL : LF ≠ NUL := by decide

theorem takeWhile_append_stop {α : Type} (p : α → Bool) (l : List α) (a : α) (r : List α)
    (hl : ∀ x ∈ l, p x = true) (ha : p a = false) :
    (l ++ a :: r).takeWhile p = l := by
  induction l with
  | nil => simp [List.takeWhile, ha]
  | cons x xs ih =>
    have hx : p x = true := hl x (List.mem_cons_self _ _)
    simp [List.takeWhile, hx, ih fun y hy => hl y (List.mem_cons_of_mem _ hy)]

theorem dropWhile_append_stop {α : Type} (p : α → Bool) (l : List α) (a : α) (r : List α)
    (hl : ∀ x ∈ l, p x = true) (ha : p a = false) :
    (l ++ a :: r).dropWhile p = a :: r := by
  induction l with
  | nil => simp [List.dropWhile, ha]
  | cons x xs ih =>
    have hx : p x = true := hl x (List.mem_cons_self _ _)
    simp [List.dropWhile, hx, ih fun y hy => hl y (List.mem_cons_of_mem _ hy)]

theorem strlen_append_NUL (l rest : List Char) (hl : ∀ c ∈ l, c ≠ NUL) :
    strlen (l ++ NUL :: rest) = .ok l.length := by
  induction l with
  | nil => simp [strlen]
  | cons x xs ih =>
    have hx : x ≠ NUL := hl x (List.mem_cons_self _ _)
    simp [strlen, hx, ih fun y hy => hl y (List.mem_cons_of_mem _ hy)]

theorem strtok_NUL (rest : List Char) : strtok (NUL :: rest) = .ok none := by
  have h : ¬ (NUL = LF) := fun h => LF_ne_NUL h.symm
  simp [strtok, List.takeWhile, h]

theorem strtok_line (l rest : List Char) (d : Char) (hl : is_line l) (hd : d = LF ∨ d = NUL) :
    strtok (l ++ d :: rest) = .ok (some (0, l ++ NUL :: rest)) := by
  obtain ⟨hne, hc⟩ := hl
  obtain ⟨x, xs, rfl⟩ := List.exists_cons_of_ne_nil hne
  have hx := hc x (List.mem_cons_self _ _)
  have hstop : (decide (d ≠ LF ∧ d ≠ NUL)) = false := by
    rcases hd with h | h <;> simp [h]
  have hall : ∀ c ∈ x :: xs, (decide (c ≠ LF ∧ c ≠ NUL)) = true := by
    intro c hcm
    simpa using hc c hcm
  have htw := takeWhile_append_stop (fun c => decide (c ≠ LF ∧ c ≠ NUL)) (x :: xs) d rest hall hstop
  have hdw := dropWhile_append_stop (fun c => decide (c ≠ LF ∧ c ≠ NUL)) (x :: xs) d rest hall hstop
  have hk : ((x :: xs ++ d :: rest).takeWhile fun c => decide (c = LF)) = [] := by
    simp [List.takeWhile, hx.1]
  unfold strtok
  simp only [hk, List.length_nil, List.drop_zero, List.take_zero, List.nil_append]
  simp only [List.cons_append] at htw hdw ⊢
  simp only [hx.2, if_false, htw, hdw]
  simp

theorem malloc_ok (heap : List Bool) (h : ∀ b ∈ heap, b = true) :
    malloc heap = (true, heap.drop 1) := by
  cases heap with
  | nil => rfl
  | cons b t => simp [malloc, h b (List.mem_cons_self _ _)]

theorem all_true_drop (heap : List Bool) (n : Nat) (h : ∀ b ∈ heap, b = true) :
    ∀ b ∈ heap.drop n, b = true :=
  fun b hb => h b (List.mem_of_mem_drop hb)

theorem memcpy_line (cap : Nat) (l rest : List Char) (h : l.length ≤ cap) :
    memcpy (List.replicate cap NUL) (l ++ rest) l.length = .ok (padded cap l) := by
  simp [memcpy, h, padded]

theorem cstr_padded (cap : Nat) (l : List Char) (hl : ∀ c ∈ l, c ≠ NUL) (h : l.length < cap) :
    cstr (padded cap l) = l := by
  unfold cstr padded
  obtain ⟨k, hk⟩ : ∃ k, cap - l.length = k + 1 := ⟨cap - l.length - 1, by omega⟩
  rw [hk, List.replicate_succ]
  exact takeWhile_append_stop _ l NUL _ (fun c hc => by simpa using hl c hc) (by simp)

/-- One line chunk runs the body of the loop of `frame_creating` once, on that line. -/
theorem frame_creating_loop_line (LD_MAX fuel : Nat) (l rest : List Char) (d : Char)
    (frame : frame_t) (heap : List Bool) (hl : is_line l) (hd : d = LF ∨ d = NUL) :
    frame_creating_loop LD_MAX (fuel + 2) (l ++ d :: NUL :: rest) frame heap =
      frame_creating_line LD_MAX (l ++ NUL :: NUL :: rest) l.length frame heap := by
  have hnul : ∀ c ∈ l, c ≠ NUL := fun c hc => (hl.2 c hc).2
  rw [frame_creating_loop, strtok_line l (NUL :: rest) d hl hd]
  simp only [Res.bind_ok, List.drop_zero, strlen_append_NUL l (NUL :: rest) hnul]
  cases hr : frame_creating_line LD_MAX (l ++ NUL :: NUL :: rest) l.length frame heap with
  | ok r =>
    have hdrop : (l ++ NUL :: NUL :: rest).drop (l.length + 1) = NUL :: rest := by
      rw [show l ++ NUL :: NUL :: rest = (l ++ [NUL]) ++ NUL :: rest by simp]
      rw [List.drop_append_of_le_length (by simp)]
      simp
    simp only [Res.bind_ok, hdrop, frame_creating_loop, strtok_NUL]
  | fault => rfl
  | timeout => rfl

theorem frame_creating_line_chunk (LD_MAX : Nat) (l : List Char) (len : Int)
    (frame : frame_t) (heap : List Bool) (hl : is_line l) :
    frame_creating LD_MAX (l ++ [LF, NUL]) len frame heap =
      frame_creating_line LD_MAX (l ++ [NUL, NUL]) l.length frame heap := by
  unfold frame_creating
  have hlen : (l ++ [LF, NUL]).length + 1 = (l.length + 1) + 2 := by simp
  rw [hlen]
  exact frame_creating_loop_line LD_MAX (l.length + 1) l [] LF frame heap hl (Or.inl rfl)

theorem frame_creating_line_born (LD_MAX : Nat) (l rest : List Char) (frame : frame_t)
    (heap : List Bool) (hs : frame.status = STATUS_BORN)
    (hn : frame.name = List.replicate FNAME_LEN NUL) (hlen : l.length ≤ FNAME_LEN) :
    frame_creating_line LD_MAX (l ++ rest) l.length frame heap =
      .ok ({ frame with name := padded FNAME_LEN l, status := STATUS_INPUT_HEADER }, heap) := by
  have hg : GET_STATUS frame STATUS_BORN = true := by rw [GET_STATUS, hs]; decide
  simp [frame_creating_line, hg, frame_setname, hn, memcpy_line FNAME_LEN l rest hlen,
    SET_STATUS, CLR_STATUS]

theorem frame_creating_line_header (LD_MAX : Nat) (l rest : List Char) (frame : frame_t)
    (heap : List Bool) (hs : frame.status = STATUS_INPUT_HEADER)
    (hh : ∀ b ∈ heap, b = true) (hlen : l.length ≤ LD_MAX) :
    frame_creating_line LD_MAX (l ++ rest) l.length frame heap =
      .ok ({ frame with h_attrs := frame.h_attrs ++ [{ data := padded LD_MAX l }] },
        heap.drop 1) := by
  have hb : GET_STATUS frame STATUS_BORN = false := by rw [GET_STATUS, hs]; decide
  have hg : GET_STATUS frame STATUS_INPUT_HEADER = true := by rw [GET_STATUS, hs]; decide
  simp [frame_creating_line, hb, hg, frame_setdata, malloc_ok heap hh,
    memcpy_line LD_MAX l rest hlen]

theorem frame_creating_line_body (LD_MAX : Nat) (l rest : List Char) (frame : frame_t)
    (heap : List Bool) (hs : frame.status = STATUS_INPUT_BODY)
    (hh : ∀ b ∈ heap, b = true) (hlen : l.length ≤ LD_MAX) :
    frame_creating_line LD_MAX (l ++ rest) l.length frame heap =
      .ok ({ frame with h_data := frame.h_data ++ [{ data := padded LD_MAX l }] },
        heap.drop 1) := by
  have hb : GET_STATUS frame STATUS_BORN = false := by rw [GET_STATUS, hs]; decide
  have hh2 : GET_STATUS frame STATUS_INPUT_HEADER = false := by rw [GET_STATUS, hs]; decide
  have hg : GET_STATUS frame STATUS_INPUT_BODY = true := by rw [GET_STATUS, hs]; decide
  simp [frame_creating_line, hb, hh2, hg, frame_setdata, malloc_ok heap hh,
    memcpy_line LD_MAX l rest hlen]

/-- A line chunk on a frame held by the cache slot is handed to `frame_creating`. -/
theorem stomp_recv_data_line_chunk (LD_MAX : Nat) (sock : Int) (l : List Char)
    (frame : frame_t) (bucket : List frame_t) (heap : List Bool) (hl : is_line l) :
    stomp_recv_data LD_MAX (line_chunk sock l).recv_data (line_chunk sock l).len
        (line_chunk sock l).sock (some frame) bucket heap =
      (frame_creating_line LD_MAX (l ++ [NUL, NUL]) l.length frame heap).bind fun r =>
        .ok (RET_SUCCESS, { cache := some r.1, bucket := bucket, heap := r.2 }) := by
  obtain ⟨x, xs, rfl⟩ := List.exists_cons_of_ne_nil hl.1
  have h0 : ((List.length (x :: xs) : Int) + 1 = 0) = False := by
    simp only [eq_iff_iff, iff_false]; simp only [List.length_cons]; omega
  have h1 : ((List.length (x :: xs) : Int) + 1 = 1) = False := by
    simp only [eq_iff_iff, iff_false]; simp only [List.length_cons]; omega
  simp only [stomp_recv_data, is_boundary, line_chunk, h0, h1, if_false, Res.bind_ok]
  rw [frame_creating_line_chunk LD_MAX (x :: xs) _ frame heap hl]
  simp

/-! ## C1: frame assembly -/

theorem recv_all_append (LD_MAX : Nat) (a b : List chunk) (st : recv_state) :
    recv_all LD_MAX (a ++ b) st = (recv_all LD_MAX a st).bind (recv_all LD_MAX b) := by
  induction a generalizing st with
  | nil => simp [recv_all]
  | cons c cs ih =>
    simp only [List.cons_append, recv_all]
    cases stomp_recv_data LD_MAX c.recv_data c.len c.sock st.cache st.bucket st.heap with
    | ok r => simp [ih]
    | fault => rfl
    | timeout => rfl

theorem recv_all_headers (LD_MAX : Nat) (sock : Int) (hs : List (List Char)) (frame : frame_t)
    (bucket : List frame_t) (heap : List Bool) (hst : frame.status = STATUS_INPUT_HEADER)
    (hh : ∀ b ∈ heap, b = true) (hhs : ∀ l ∈ hs, is_line l ∧ l.length < LD_MAX) :
    recv_all LD_MAX (hs.map (line_chunk sock)) { cache := some frame, bucket := bucket, heap := heap } =
      .ok { cache := some { frame with
              h_attrs := frame.h_attrs ++ hs.map fun l => { data := padded LD_MAX l } },
            bucket := bucket, heap := heap.drop hs.length } := by
  induction hs generalizing frame heap with
  | nil => simp [recv_all]
  | cons l ls ih =>
    have hl := hhs l (List.mem_cons_self _ _)
    simp only [List.map_cons, recv_all]
    rw [stomp_recv_data_line_chunk LD_MAX sock l frame bucket heap hl.1,
      frame_creating_line_header LD_MAX l [NUL, NUL] frame heap hst hh (Nat.le_of_lt hl.2)]
    simp only [Res.bind_ok]
    rw [ih { frame with h_attrs := frame.h_attrs ++ [{ data := padded LD_MAX l }] } _ hst
      (all_true_drop heap 1 hh) fun x hx => hhs x (List.mem_cons_of_mem _ hx)]
    simp [List.append_assoc, Nat.add_comm]

theorem recv_all_body (LD_MAX : Nat) (sock : Int) (bs : List (List Char)) (frame : frame_t)
    (bucket : List frame_t) (heap : List Bool) (hst : frame.status = STATUS_INPUT_BODY)
    (hh : ∀ b ∈ heap, b = true) (hbs : ∀ l ∈ bs, is_line l ∧ l.length < LD_MAX) :
    recv_all LD_MAX (bs.map (line_chunk sock)) { cache := some frame, bucket := bucket, heap := heap } =
      .ok { cache := some { frame with
              h_data := frame.h_data ++ bs.map fun l => { data := padded LD_MAX l } },
            bucket := bucket, heap := heap.drop bs.length } := by
  induction bs generalizing frame heap with
  | nil => simp [recv_all]
  | cons l ls ih =>
    have hl := hbs l (List.mem_cons_self _ _)
    simp only [List.map_cons, recv_all]
    rw [stomp_recv_data_line_chunk LD_MAX sock l frame bucket heap hl.1,
      frame_creating_line_body LD_MAX l [NUL, NUL] frame heap hst hh (Nat.le_of_lt hl.2)]
    simp only [Res.bind_ok]
    rw [ih { frame with h_data := frame.h_data ++ [{ data := padded LD_MAX l }] } _ hst
      (all_true_drop heap 1 hh) fun x hx => hbs x (List.mem_cons_of_mem _ hx)]
    simp [List.append_assoc, Nat.add_comm]

theorem map_cstr_padded (cap : Nat) (ls : List (List Char))
    (h : ∀ l ∈ ls, is_line l ∧ l.length < cap) :
    (ls.map fun l => ({ data := padded cap l } : linedata_t)).map (fun a => cstr a.data) = ls := by
  induction ls with
  | nil => rfl
  | cons l ls ih =>
    have hl := h l (List.mem_cons_self _ _)
    simp only [List.map_cons, List.map_map] at ih ⊢
    rw [ih fun x hx => h x (List.mem_cons_of_mem _ hx)]
    simp [cstr_padded cap l (fun c hc => (hl.1.2 c hc).2) hl.2]

/-- The state the chunks of one frame leave, with the buffers written out. -/
theorem recv_all_frame_chunks (LD_MAX : Nat) (sock sock1 : Int) (n : List Char)
    (hs bs : List (List Char)) (Q : List frame_t) (heap : List Bool)
    (hn : is_line n ∧ n.length < FNAME_LEN)
    (hhs : ∀ l ∈ hs, is_line l ∧ l.length < LD_MAX)
    (hbs : ∀ l ∈ bs, is_line l ∧ l.length < LD_MAX)
    (hh : ∀ b ∈ heap, b = true) :
    recv_all LD_MAX (frame_chunks sock sock1 n hs bs) { cache := none, bucket := Q, heap := heap } =
      .ok { cache := none,
            bucket := Q ++ [{ name := padded FNAME_LEN n, sock := sock,
                              status := STATUS_IN_BUCKET,
                              h_attrs := hs.map fun l => { data := padded LD_MAX l },
                              h_data := bs.map fun l => { data := padded LD_MAX l } }],
            heap := ((heap.drop 1).drop hs.length).drop bs.length } := by
  have hh1 := all_true_drop heap 1 hh
  have hh2 := all_true_drop _ hs.length hh1
  -- the name
  have hfirst : stomp_recv_data LD_MAX (line_chunk sock n).recv_data (line_chunk sock n).len
      (line_chunk sock n).sock none Q heap =
      .ok (RET_SUCCESS,
        { cache := some { name := padded FNAME_LEN n, sock := sock,
                          status := STATUS_INPUT_HEADER, h_attrs := [], h_data := [] },
          bucket := Q, heap := heap.drop 1 }) := by
    have hstep := stomp_recv_data_line_chunk LD_MAX sock n
      { name := List.replicate FNAME_LEN NUL, sock := sock, status := STATUS_BORN,
        h_attrs := [], h_data := [] } Q (heap.drop 1) hn.1
    rw [frame_creating_line_born LD_MAX n [NUL, NUL] _ (heap.drop 1) rfl rfl
      (Nat.le_of_lt hn.2)] at hstep
    simp only [Res.bind_ok] at hstep
    rw [← hstep]
    simp [stomp_recv_data, is_boundary, alloc_frame, malloc_ok heap hh, line_chunk]
  unfold frame_chunks
  rw [recv_all, hfirst]
  simp only [Res.bind_ok]
  rw [recv_all_append, recv_all_headers LD_MAX sock1 hs _ Q _ rfl hh1 hhs]
  simp only [Res.bind_ok, List.nil_append]
  -- the boundary
  rw [recv_all]
  have hb : stomp_recv_data LD_MAX (boundary_chunk sock1).recv_data (boundary_chunk sock1).len
      (boundary_chunk sock1).sock
      (some { name := padded FNAME_LEN n, sock := sock, status := STATUS_INPUT_HEADER,
              h_attrs := hs.map fun l => { data := padded LD_MAX l }, h_data := [] })
      Q ((heap.drop 1).drop hs.length) =
      .ok (RET_SUCCESS,
        { cache := some { name := padded FNAME_LEN n, sock := sock,
                          status := STATUS_INPUT_BODY,
                          h_attrs := hs.map fun l => { data := padded LD_MAX l },
                          h_data := [] },
          bucket := Q, heap := (heap.drop 1).drop hs.length }) := by
    simp [stomp_recv_data, is_boundary, boundary_chunk, SET_STATUS, CLR_STATUS]
  rw [hb]
  simp only [Res.bind_ok]
  rw [recv_all_append, recv_all_body LD_MAX sock1 bs _ Q _ rfl hh2 hbs]
  simp only [Res.bind_ok, List.nil_append]
  simp [recv_all, stomp_recv_data, is_boundary, eof_chunk, frame_create_finish, SET_STATUS,
    CLR_STATUS]

/-- C1: feeding `stomp_recv_data` the name `n`, the header lines `hs`, the lone line
terminator, the body lines `bs` (each line as its own chunk, each line non-empty,
free of the line terminator and shorter than its buffer) and the end-of-frame
chunk, from an empty cache slot and the bucket `Q`, with every allocation
succeeding, leaves the cache slot empty and the bucket equal to `Q` followed by one
frame whose name is `n`, whose headers are `hs`, whose body lines are `bs`, whose
sock is the one of the first call and whose status is `STATUS_IN_BUCKET`. -/
theorem recv_frame_assembly (LD_MAX : Nat) (sock sock1 : Int) (n : List Char)
    (hs bs : List (List Char)) (Q : List frame_t) (heap : List Bool)
    (hn : is_line n ∧ n.length < FNAME_LEN)
    (hhs : ∀ l ∈ hs, is_line l ∧ l.length < LD_MAX)
    (hbs : ∀ l ∈ bs, is_line l ∧ l.length < LD_MAX)
    (hh : ∀ b ∈ heap, b = true) :
    ∃ (frame : frame_t) (heap1 : List Bool),
      recv_all LD_MAX (frame_chunks sock sock1 n hs bs)
          { cache := none, bucket := Q, heap := heap } =
        .ok { cache := none, bucket := Q ++ [frame], heap := heap1 } ∧
      cstr frame.name = n ∧
      frame.h_attrs.map (fun a => cstr a.data) = hs ∧
      frame.h_data.map (fun a => cstr a.data) = bs ∧
      frame.sock = sock ∧ frame.status = STATUS_IN_BUCKET :=
  ⟨_, _, recv_all_frame_chunks LD_MAX sock sock1 n hs bs Q heap hn hhs hbs hh,
    cstr_padded FNAME_LEN n (fun c hc => (hn.1.2 c hc).2) hn.2,
    map_cstr_padded LD_MAX hs hhs, map_cstr_padded LD_MAX bs hbs, rfl, rfl⟩

/-- C1 at the frame CONNECT, two header lines and two body lines, on an empty
bucket. -/
theorem recv_frame_assembly_witness :
    ∃ (frame : frame_t) (heap1 : List Bool),
      recv_all 512
          (frame_chunks 3 3 "CONNECT".toList
            ["accept-version:1.2".toList, "host:localhost".toList]
            ["hello".toList, "world".toList])
          { cache := none, bucket := [], heap := [] } =
        .ok { cache := none, bucket := [] ++ [frame], heap := heap1 } ∧
      cstr frame.name = "CONNECT".toList ∧
      frame.h_attrs.map (fun a => cstr a.data) =
        ["accept-version:1.2".toList, "host:localhost".toList] ∧
      frame.h_data.map (fun a => cstr a.data) = ["hello".toList, "world".toList] ∧
      frame.sock = 3 ∧ frame.status = STATUS_IN_BUCKET :=
  recv_frame_assembly 512 3 3 "CONNECT".toList
    ["accept-version:1.2".toList, "host:localhost".toList]
    ["hello".toList, "world".toList] [] []
    (by unfold is_line; decide) (by unfold is_line; decide) (by unfold is_line; decide)
    (by simp)

/-- The chunks CONNECT, the lone line terminator and the end of frame, on an empty
bucket, leave one queued frame named CONNECT without headers and without body. -/
theorem recv_connect_only :
    recv_all 16 (frame_chunks 3 3 "CONNECT".toList [] [])
        { cache := none, bucket := [], heap := [] } =
      .ok { cache := none, bucket := [{ named_frame "CONNECT" with sock := 3 }], heap := [] } := by
  decide

/-! ## C2: the bucket is first in, first out -/

theorem get_frames_some (Q bucket : List frame_t) (n : Nat) :
    get_frames (Q.length + n) (Q ++ bucket) =
      (Q.map some ++ (get_frames n bucket).1, (get_frames n bucket).2) := by
  induction Q with
  | nil => simp
  | cons f fs ih =>
    have h : (f :: fs).length + n = (fs.length + n) + 1 := by simp; omega
    rw [h, List.cons_append, get_frames]
    simp [get_frame_from_bucket, ih]

theorem finish_all_eq (frames bucket : List frame_t) :
    finish_all frames bucket =
      bucket ++ frames.map fun f => SET_STATUS (CLR_STATUS f) STATUS_IN_BUCKET := by
  induction frames generalizing bucket with
  | nil => simp [finish_all]
  | cons f fs ih => simp [finish_all, ih, frame_create_finish]

/-- C2: the bucket is FIFO. After `frame_create_finish` has enqueued the frames
`fs`, in order, on a bucket holding `Q`, the calls of `get_frame_from_bucket`
return the frames of `Q` in order, then the frames `fs` (each with the status
`STATUS_IN_BUCKET` that `frame_create_finish` gave it) in order, each once; the
call after the last one returns NULL and the bucket is empty. -/
theorem bucket_fifo (Q fs : List frame_t) :
    get_frames (Q.length + fs.length + 1) (finish_all fs Q) =
      ((Q ++ fs.map fun f => SET_STATUS (CLR_STATUS f) STATUS_IN_BUCKET).map some ++ [none],
        []) := by
  have h := get_frames_some
    (Q ++ fs.map fun f => SET_STATUS (CLR_STATUS f) STATUS_IN_BUCKET) [] 1
  simp only [List.append_nil, List.length_append, List.length_map] at h
  rw [finish_all_eq, h]
  simp [get_frames, get_frame_from_bucket]

/-! ## C3, C4: dispatch -/

theorem char_sub_ne_zero (a b : Char) (h : a ≠ b) : ((a.toNat : Int) - (b.toNat : Int)) ≠ 0 := by
  intro h0
  apply h
  have h1 : a.toNat = b.toNat := by omega
  have h2 : Char.ofNat a.toNat = Char.ofNat b.toNat := by rw [h1]
  simpa using h2

theorem strncmp_zero_iff (p : List Char) (hp : ∀ c ∈ p, c ≠ NUL) (a r : List Char)
    (hlen : p.length ≤ a.length) :
    ∃ c, strncmp a (p ++ r) p.length = .ok c ∧ (c = 0 ↔ p <+: a) := by
  induction p generalizing a with
  | nil => exact ⟨0, by simp [strncmp], by simp⟩
  | cons x xs ih =>
    cases a with
    | nil => simp at hlen
    | cons y ys =>
      have hx : x ≠ NUL := hp x (List.mem_cons_self _ _)
      by_cases hyx : y = x
      · subst hyx
        obtain ⟨c, hc, hiff⟩ := ih (fun c hc => hp c (List.mem_cons_of_mem _ hc)) ys
          (by simpa using hlen)
        exact ⟨c, by simp [strncmp, hx, hc], by simp [hiff]⟩
      · refine ⟨(y.toNat : Int) - (x.toNat : Int), by simp [strncmp, hyx], ?_⟩
        constructor
        · intro h0
          exact absurd h0 (char_sub_ne_zero y x hyx)
        · intro hpre
          exact absurd (List.cons_prefix_cons.1 hpre).1.symm hyx

theorem cstr_append_NUL (p r : List Char) (hp : ∀ c ∈ p, c ≠ NUL) :
    cstr (p ++ NUL :: r) = p :=
  takeWhile_append_stop _ p NUL r (fun c hc => by simpa using hp c hc) (by simp)

theorem prefix_cstr_iff (p a : List Char) (hp : ∀ c ∈ p, c ≠ NUL) :
    p <+: cstr a ↔ p <+: a := by
  constructor
  · intro h
    exact h.trans (List.takeWhile_prefix _)
  · rintro ⟨t, rfl⟩
    unfold cstr
    rw [List.takeWhile_append]
    have hall : p.takeWhile (fun c => decide (c ≠ NUL)) = p := by
      rw [List.takeWhile_eq_self_iff]
      intro c hc
      simpa using hp c hc
    rw [hall]
    simp

theorem handle_frame_scan_eq {H : Type} (frame : frame_t) (handlers : List (stomp_handler_t H))
    (hwf : ∀ h ∈ handlers, ∃ p, h.name = p ++ [NUL] ∧ (∀ c ∈ p, c ≠ NUL) ∧
      p.length ≤ frame.name.length) :
    handle_frame_scan frame handlers = dispatch_first_match frame handlers := by
  unfold dispatch_first_match
  induction handlers with
  | nil => simp [handle_frame_scan, first_match]
  | cons h t ih =>
    obtain ⟨p, hname, hp, hlen⟩ := hwf h (List.mem_cons_self _ _)
    obtain ⟨c, hc, hiff⟩ := strncmp_zero_iff p hp frame.name [NUL] hlen
    have ih1 := ih fun x hx => hwf x (List.mem_cons_of_mem _ hx)
    have hcs : cstr h.name = p := by rw [hname]; exact cstr_append_NUL p [] hp
    rw [handle_frame_scan, hname, strlen_append_NUL p [] hp]
    simp only [Res.bind_ok, hc]
    unfold first_match at ih1 ⊢
    rw [List.find?_cons]
    by_cases h0 : c = 0
    · have hpre : (cstr h.name).isPrefixOf (cstr frame.name) = true := by
        rw [hcs, List.isPrefixOf_iff_prefix, prefix_cstr_iff p _ hp]
        exact hiff.1 h0
      simp [h0, hpre, call_handler]
    · have hpre : (cstr h.name).isPrefixOf (cstr frame.name) = false := by
        rw [hcs, ← Bool.not_eq_true, List.isPrefixOf_iff_prefix, prefix_cstr_iff p _ hp]
        exact fun hh => h0 (hiff.2 hh)
      simp [h0, hpre, ih1]

theorem stomp_handlers_wf (frame : frame_t) (hlen : frame.name.length = FNAME_LEN) :
    ∀ h ∈ stomp_handlers, ∃ p, h.name = p ++ [NUL] ∧ (∀ c ∈ p, c ≠ NUL) ∧
      p.length ≤ frame.name.length := by
  intro h hh
  refine ⟨h.name.dropLast, ?_, ?_, ?_⟩
  · revert h; decide
  · revert h; decide
  · rw [hlen]; revert h; decide

/-- C3: dispatch by first prefix match. For every frame, `handle_frame` goes to the
first entry of `stomp_handlers`, in table order, whose name is a prefix of the name
of the frame, and calls the `handler` of that entry once and no other (a null
`handler` makes that call undefined); with no such entry it calls nothing. A frame
named CONNECT or CONNECTX calls `handler_stomp_connect` and nothing else, a frame
named UNKNOWNCMD or with an empty name calls nothing. -/
theorem handle_frame_first_match (frame : frame_t) (hlen : frame.name.length = FNAME_LEN) :
    handle_frame frame = dispatch_first_match frame stomp_handlers ∧
    (cstr frame.name = "CONNECT".toList →
      handle_frame frame = .ok [handler_fn.handler_stomp_connect]) ∧
    (cstr frame.name = "CONNECTX".toList →
      handle_frame frame = .ok [handler_fn.handler_stomp_connect]) ∧
    (cstr frame.name = "UNKNOWNCMD".toList → handle_frame frame = .ok []) ∧
    (cstr frame.name = [] → handle_frame frame = .ok []) := by
  have h := handle_frame_scan_eq frame stomp_handlers (stomp_handlers_wf frame hlen)
  refine ⟨h, ?_, ?_, ?_, ?_⟩ <;>
  · intro hn
    unfold handle_frame
    rw [h, dispatch_first_match, first_match, hn]
    decide

/-- C3 at the frame named CONNECT: only `handler_stomp_connect` is called. -/
theorem handle_frame_first_match_witness :
    handle_frame (named_frame "CONNECT") = .ok [handler_fn.handler_stomp_connect] :=
  (handle_frame_first_match (named_frame "CONNECT") (by decide)).2.1 (by decide)

/-- C4: on a frame named after an entry of `stomp_handlers` whose `handler` is NULL,
`handle_frame` makes the call `(*h->handler)(frame)` through the null pointer:
the run is undefined for each of the nine names. -/
theorem handle_frame_null_handler :
    (["SEND", "SUBSCRIBE", "DISCONNECT", "UNSUBSCRIBE", "BEGIN", "COMMIT", "ABORT", "ACK",
        "NACK"].map fun n => handle_frame (named_frame n)) =
      List.replicate 9 Res.fault := by
  decide

theorem frame_creating_line_born_overflow (LD_MAX : Nat) (l rest : List Char)
    (frame : frame_t) (heap : List Bool) (hs : frame.status = STATUS_BORN)
    (hlen : frame.name.length < l.length) :
    frame_creating_line LD_MAX (l ++ rest) l.length frame heap = .fault := by
  have hg : GET_STATUS frame STATUS_BORN = true := by rw [GET_STATUS, hs]; decide
  simp [frame_creating_line, hg, frame_setname, memcpy, Nat.not_le.2 hlen]

/-- C5: a line longer than its buffer is copied whole. `frame_setname` copies the 65
characters of a name into the 64 characters of `frame->name`, `frame_setdata` copies
the `LD_MAX + 1` characters of a line into the `LD_MAX` characters of the node, and
`stomp_recv_data` does so for the chunk of a 65 character name: each writes past
the buffer. -/
theorem long_line_overflows (LD_MAX : Nat) (frame : frame_t) (head : List linedata_t)
    (heap : List Bool) :
    frame_setname (List.replicate 65 (Char.ofNat 65) ++ [NUL]) 65
        { frame with name := List.replicate FNAME_LEN NUL } = .fault ∧
    frame_setdata LD_MAX (List.replicate (LD_MAX + 1) (Char.ofNat 65) ++ [NUL]) (LD_MAX + 1)
        head (true :: heap) = .fault ∧
    stomp_recv_data LD_MAX (List.replicate 65 (Char.ofNat 65) ++ [LF, NUL]) 66 3 none []
        [] = .fault := by
  refine ⟨?_, ?_, ?_⟩
  · simp [frame_setname, memcpy, FNAME_LEN]
  · simp [frame_setdata, malloc, memcpy]
  · have hl : is_line (List.replicate 65 (Char.ofNat 65)) := by unfold is_line; decide
    have h := stomp_recv_data_line_chunk LD_MAX 3 (List.replicate 65 (Char.ofNat 65))
      { name := List.replicate FNAME_LEN NUL, sock := 3, status := STATUS_BORN,
        h_attrs := [], h_data := [] } [] [] hl
    rw [frame_creating_line_born_overflow LD_MAX _ _ _ _ rfl (by decide)] at h
    exact h

/-! ## The effect of one chunk on a frame under assembly -/

theorem status_set_clr (f : frame_t) (s : Nat) : (SET_STATUS (CLR_STATUS f) s).status = s := by
  simp [SET_STATUS, CLR_STATUS]

theorem frame_grows_refl (f : frame_t) (h : assembling f.status) : frame_grows f f :=
  ⟨h, Nat.le_refl _, rfl, fun _ => ⟨‹_›, rfl, rfl, List.prefix_refl _⟩,
    fun _ => ⟨‹_›, rfl, rfl, List.prefix_refl _⟩⟩

theorem frame_grows_trans (f g k : frame_t) (h1 : frame_grows f g) (h2 : frame_grows g k) :
    frame_grows f k := by
  obtain ⟨_, a2, a3, a4, a5⟩ := h1
  obtain ⟨b1, b2, b3, b4, b5⟩ := h2
  refine ⟨b1, Nat.le_trans a2 b2, b3.trans a3, ?_, ?_⟩
  · intro hf
    obtain ⟨c1, c2, c3, c4⟩ := a4 hf
    obtain ⟨d1, d2, d3, d4⟩ := b4 c1
    exact ⟨d1, d2.trans c2, d3.trans c3, c4.trans d4⟩
  · intro hf
    obtain ⟨c1, c2, c3, c4⟩ := a5 hf
    obtain ⟨d1, d2, d3, d4⟩ := b5 c1
    exact ⟨d1, d2.trans c2, d3.trans c3, c4.trans d4⟩

theorem frame_setdata_grows (LD_MAX : Nat) (data : List Char) (len : Nat)
    (head : List linedata_t) (heap : List Bool) (r : Int × List linedata_t × List Bool)
    (h : frame_setdata LD_MAX data len head heap = .ok r) : head <+: r.2.1 := by
  unfold frame_setdata at h
  cases hm : malloc heap with
  | mk b heap1 =>
    cases b with
    | false =>
      simp only [hm, Res.ok.injEq] at h
      rw [← h]
    | true =>
      simp only [hm] at h
      cases hc : memcpy (List.replicate LD_MAX NUL) data len with
      | ok buf =>
        simp only [hc, Res.bind_ok, Res.ok.injEq] at h
        rw [← h]
        exact List.prefix_append _ _
      | fault => simp [hc] at h
      | timeout => simp [hc] at h

theorem frame_creating_line_grows (LD_MAX : Nat) (line : List Char) (attrlen : Nat)
    (frame : frame_t) (heap : List Bool) (r : frame_t × List Bool)
    (hph : assembling frame.status)
    (h : frame_creating_line LD_MAX line attrlen frame heap = .ok r) :
    frame_grows frame r.1 := by
  unfold frame_creating_line at h
  rcases hph with hs | hs | hs
  · have hg : GET_STATUS frame STATUS_BORN = true := by rw [GET_STATUS, hs]; decide
    simp only [hg, if_true, frame_setname] at h
    cases hc : memcpy frame.name line attrlen with
    | ok name =>
      simp only [hc, Res.bind_ok, Res.ok.injEq] at h
      rw [← h]
      have hst := status_set_clr { frame with name := name } STATUS_INPUT_HEADER
      refine ⟨Or.inr (Or.inl hst), ?_, rfl, ?_, ?_⟩
      · exact le_of_le_of_eq (by rw [hs]; decide : frame.status ≤ STATUS_INPUT_HEADER) hst.symm
      · intro hf; rw [hs] at hf; exact absurd hf (by decide)
      · intro hf; rw [hs] at hf; exact absurd hf (by decide)
    | fault => simp [hc] at h
    | timeout => simp [hc] at h
  · have hb : GET_STATUS frame STATUS_BORN = false := by rw [GET_STATUS, hs]; decide
    have hg : GET_STATUS frame STATUS_INPUT_HEADER = true := by rw [GET_STATUS, hs]; decide
    simp only [hb, hg, if_true, Bool.false_eq_true, if_false] at h
    cases hc : frame_setdata LD_MAX line attrlen frame.h_attrs heap with
    | ok q =>
      simp only [hc, Res.bind_ok, Res.ok.injEq] at h
      rw [← h]
      refine ⟨Or.inr (Or.inl hs), Nat.le_refl _, rfl, ?_, ?_⟩
      · intro _
        exact ⟨hs, rfl, rfl, frame_setdata_grows LD_MAX line attrlen _ heap q hc⟩
      · intro hf; rw [hs] at hf; exact absurd hf (by decide)
    | fault => simp [hc] at h
    | timeout => simp [hc] at h
  · have hb : GET_STATUS frame STATUS_BORN = false := by rw [GET_STATUS, hs]; decide
    have hh : GET_STATUS frame STATUS_INPUT_HEADER = false := by rw [GET_STATUS, hs]; decide
    have hg : GET_STATUS frame STATUS_INPUT_BODY = true := by rw [GET_STATUS, hs]; decide
    simp only [hb, hh, hg, if_true, Bool.false_eq_true, if_false] at h
    cases hc : frame_setdata LD_MAX line attrlen frame.h_data heap with
    | ok q =>
      simp only [hc, Res.bind_ok, Res.ok.injEq] at h
      rw [← h]
      refine ⟨Or.inr (Or.inr hs), Nat.le_refl _, rfl, ?_, ?_⟩
      · intro hf; rw [hs] at hf; exact absurd hf (by decide)
      · intro _
        exact ⟨hs, rfl, rfl, frame_setdata_grows LD_MAX line attrlen _ heap q hc⟩
    | fault => simp [hc] at h
    | timeout => simp [hc] at h

theorem frame_creating_loop_grows (LD_MAX fuel : Nat) (pointer : List Char) (frame : frame_t)
    (heap : List Bool) (r : frame_t × List Bool) (hph : assembling frame.status)
    (h : frame_creating_loop LD_MAX fuel pointer frame heap = .ok r) :
    frame_grows frame r.1 := by
  induction fuel generalizing pointer frame heap with
  | zero => simp [frame_creating_loop] at h
  | succ n ih =>
    rw [frame_creating_loop] at h
    cases ht : strtok pointer with
    | ok t =>
      cases t with
      | none =>
        simp only [ht, Res.bind_ok, Res.ok.injEq] at h
        rw [← h]
        exact frame_grows_refl frame hph
      | some km =>
        obtain ⟨k, mem⟩ := km
        simp only [ht, Res.bind_ok] at h
        cases hl : strlen (mem.drop k) with
        | ok attrlen =>
          simp only [hl, Res.bind_ok] at h
          cases hq : frame_creating_line LD_MAX (mem.drop k) attrlen frame heap with
          | ok q =>
            simp only [hq, Res.bind_ok] at h
            have h1 := frame_creating_line_grows LD_MAX _ attrlen frame heap q hph hq
            exact frame_grows_trans _ _ _ h1 (ih _ q.1 q.2 h1.1 h)
          | fault => simp [hq] at h
          | timeout => simp [hq] at h
        | fault => simp [hl] at h
        | timeout => simp [hl] at h
    | fault => simp [ht] at h
    | timeout => simp [ht] at h

/-! ## C6: blank lines of the body -/

theorem stomp_recv_data_boundary (LD_MAX : Nat) (rest : List Char) (sock : Int)
    (frame : frame_t) (bucket : List frame_t) (heap : List Bool) :
    stomp_recv_data LD_MAX (LF :: rest) 1 sock (some frame) bucket heap =
      .ok (RET_SUCCESS, { cache := some { frame with status := STATUS_INPUT_BODY },
                          bucket := bucket, heap := heap }) := by
  simp [stomp_recv_data, is_boundary, SET_STATUS, CLR_STATUS]

/-- C6 as stated fails: a frame in the body phase that is fed a chunk that is only
a line terminator gets no new body line, the frame is as before. -/
theorem blank_body_line_dropped :
    stomp_recv_data 16 [LF, NUL] 1 3 (some body_frame) [] [] =
      .ok (RET_SUCCESS, { cache := some body_frame, bucket := [], heap := [] }) ∧
    body_frame.status = STATUS_INPUT_BODY ∧ body_frame.h_data.length = 1 := by
  decide

/-- C6, amended: in the body phase every input line that is not blank is kept. For
a frame in the body phase and input lines each fed as its own chunk (allocations
succeeding), a non-empty line appends one entry, holding that line, to the body
lines, and a chunk that is only a line terminator appends nothing and leaves the
frame as it is: the body lines grow by the lines that are not blank, in order. -/
theorem body_lines_kept (LD_MAX : Nat) (sock : Int) (ls : List (Option (List Char)))
    (frame : frame_t) (bucket : List frame_t) (heap : List Bool)
    (hst : frame.status = STATUS_INPUT_BODY) (hh : ∀ b ∈ heap, b = true)
    (hls : ∀ l, some l ∈ ls → is_line l ∧ l.length < LD_MAX) :
    recv_all LD_MAX (ls.map (body_chunk sock))
        { cache := some frame, bucket := bucket, heap := heap } =
      .ok { cache := some { frame with
              h_data := frame.h_data ++
                (ls.filterMap id).map fun l => { data := padded LD_MAX l } },
            bucket := bucket, heap := heap.drop (ls.filterMap id).length } := by
  induction ls generalizing frame heap with
  | nil => simp [recv_all]
  | cons o os ih =>
    have hos : ∀ l, some l ∈ os → is_line l ∧ l.length < LD_MAX :=
      fun l hl => hls l (List.mem_cons_of_mem _ hl)
    cases o with
    | none =>
      have hsame : ({ frame with status := STATUS_INPUT_BODY } : frame_t) = frame := by
        cases frame; simp only at hst; simp [hst]
      simp only [List.map_cons, recv_all, body_chunk, boundary_chunk]
      rw [stomp_recv_data_boundary, Res.bind_ok, hsame]
      simpa using ih frame heap hst hh hos
    | some l =>
      have hl := hls l (List.mem_cons_self _ _)
      simp only [List.map_cons, recv_all, body_chunk]
      rw [stomp_recv_data_line_chunk LD_MAX sock l frame bucket heap hl.1,
        frame_creating_line_body LD_MAX l [NUL, NUL] frame heap hst hh (Nat.le_of_lt hl.2)]
      simp only [Res.bind_ok]
      rw [ih { frame with h_data := frame.h_data ++ [{ data := padded LD_MAX l }] } _ hst
        (all_true_drop heap 1 hh) hos]
      simp [List.append_assoc, Nat.add_comm]

/-- C6, amended, at the lines "hello", a blank line and "world": two lines are kept. -/
theorem body_lines_kept_witness :
    recv_all 16 ([some "hello".toList, none, some "world".toList].map (body_chunk 3))
        { cache := some { body_frame with h_data := [] }, bucket := [], heap := [] } =
      .ok { cache := some { body_frame with
              h_data := [] ++ ([some "hello".toList, none, some "world".toList].filterMap id).map
                fun l => { data := padded 16 l } },
            bucket := [],
            heap := ([] : List Bool).drop
              ([some "hello".toList, none, some "world".toList].filterMap id).length } :=
  body_lines_kept 16 3 [some "hello".toList, none, some "world".toList]
    { body_frame with h_data := [] } [] [] rfl (by simp)
    (by
      intro l hl
      simp only [List.mem_cons, Option.some.injEq, List.mem_singleton, reduceCtorEq,
        false_or, List.not_mem_nil, or_false] at hl
      rcases hl with rfl | rfl <;> (unfold is_line; decide))

/-! ## C7: a zero-length line inside a chunk -/

/-- C7 as stated fails: on a frame in the header phase the chunk
"host:localhost\n\nhello\n" appends both host:localhost and hello to the headers;
the frame stays in the header phase and has no body line. -/
theorem empty_line_in_chunk_not_boundary :
    stomp_recv_data 16 ("host:localhost".toList ++ [LF, LF] ++ "hello".toList ++ [LF, NUL]) 22 3
        (some header_frame) [] [] =
      .ok (RET_SUCCESS,
        { cache := some { header_frame with
            h_attrs := [{ data := padded 16 "host:localhost".toList },
                        { data := padded 16 "hello".toList }] },
          bucket := [], heap := [] }) ∧
    header_frame.status = STATUS_INPUT_HEADER ∧ header_frame.h_data = [] := by
  decide

theorem stomp_recv_data_grows (LD_MAX : Nat) (recv_data : List Char) (len : Int) (sock : Int)
    (frame : frame_t) (bucket : List frame_t) (heap : List Bool) (ret : Int) (st : recv_state)
    (hph : assembling frame.status) (hlen : len ≠ 0)
    (hb : ¬ (len = 1 ∧ recv_data.head? = some LF))
    (h : stomp_recv_data LD_MAX recv_data len sock (some frame) bucket heap = .ok (ret, st)) :
    ∃ g, st.cache = some g ∧ frame_grows frame g := by
  unfold stomp_recv_data at h
  simp only [hlen, if_false] at h
  have hbd : is_boundary recv_data len = .ok false ∨ is_boundary recv_data len = .fault := by
    unfold is_boundary
    by_cases h1 : len = 1
    · cases recv_data with
      | nil => simp [h1]
      | cons c cs =>
        have hc : c ≠ LF := fun hc => hb ⟨h1, by simp [hc]⟩
        simp [h1, hc]
    · simp [h1]
  rcases hbd with hbd | hbd
  · rw [hbd] at h
    simp only [Res.bind_ok, Bool.false_eq_true, if_false] at h
    cases hq : frame_creating LD_MAX recv_data len frame heap with
    | ok q =>
      simp only [hq, Res.bind_ok, Res.ok.injEq, Prod.mk.injEq] at h
      rw [← h.2]
      exact ⟨q.1, rfl, frame_creating_loop_grows LD_MAX _ _ frame heap q hph hq⟩
    | fault => simp [hq] at h
    | timeout => simp [hq] at h
  · rw [hbd] at h
    simp at h

/-- C7, amended: the header section ends only at the chunk that is exactly one
line terminator. On a frame in the header phase that chunk stores nothing and moves
the frame to the body phase; every other chunk with `len != 0`, also one that holds
a zero-length line, leaves the frame in the header phase with its name and its body
lines as they were, the lines it stores going to the headers. -/
theorem header_ends_at_lone_terminator (LD_MAX : Nat) (recv_data : List Char) (len : Int)
    (sock : Int) (frame : frame_t) (bucket : List frame_t) (heap : List Bool)
    (hst : frame.status = STATUS_INPUT_HEADER) :
    (∀ rest, stomp_recv_data LD_MAX (LF :: rest) 1 sock (some frame) bucket heap =
      .ok (RET_SUCCESS, { cache := some { frame with status := STATUS_INPUT_BODY },
                          bucket := bucket, heap := heap })) ∧
    (len ≠ 0 → ¬ (len = 1 ∧ recv_data.head? = some LF) → ∀ ret st,
      stomp_recv_data LD_MAX recv_data len sock (some frame) bucket heap = .ok (ret, st) →
      ∃ g, st.cache = some g ∧ g.status = STATUS_INPUT_HEADER ∧ g.name = frame.name ∧
        g.h_data = frame.h_data ∧ frame.h_attrs <+: g.h_attrs) := by
  refine ⟨fun rest => stomp_recv_data_boundary LD_MAX rest sock frame bucket heap, ?_⟩
  intro hlen hb ret st h
  obtain ⟨g, hg, hgrow⟩ := stomp_recv_data_grows LD_MAX recv_data len sock frame bucket heap
    ret st (Or.inr (Or.inl hst)) hlen hb h
  exact ⟨g, hg, hgrow.2.2.2.1 hst⟩

/-- C7, amended, at the chunk "host:localhost\n\nhello\n": the frame stays in the
header phase. -/
theorem header_ends_at_lone_terminator_witness :
    ∃ g, (some { header_frame with
            h_attrs := [{ data := padded 16 "host:localhost".toList },
                        { data := padded 16 "hello".toList }] } : Option frame_t) = some g ∧
      g.status = STATUS_INPUT_HEADER ∧ g.name = header_frame.name ∧
      g.h_data = header_frame.h_data ∧ header_frame.h_attrs <+: g.h_attrs :=
  (header_ends_at_lone_terminator 16
    ("host:localhost".toList ++ [LF, LF] ++ "hello".toList ++ [LF, NUL]) 22 3
    header_frame [] [] rfl).2 (by decide) (by decide) RET_SUCCESS
    { cache := some { header_frame with
        h_attrs := [{ data := padded 16 "host:localhost".toList },
                    { data := padded 16 "hello".toList }] },
      bucket := [], heap := [] }
    (by decide)

/-! ## C9: only the end-of-frame chunk enqueues -/

theorem stomp_recv_data_some_ne_zero (LD_MAX : Nat) (recv_data : List Char) (len : Int)
    (sock : Int) (frame : frame_t) (bucket : List frame_t) (heap : List Bool) (ret : Int)
    (st : recv_state) (hlen : len ≠ 0)
    (h : stomp_recv_data LD_MAX recv_data len sock (some frame) bucket heap = .ok (ret, st)) :
    ret = RET_SUCCESS ∧ st.bucket = bucket ∧ ∃ g, st.cache = some g := by
  unfold stomp_recv_data at h
  simp only [hlen, if_false] at h
  cases hb : is_boundary recv_data len with
  | ok b =>
    simp only [hb, Res.bind_ok] at h
    cases b with
    | true =>
      simp only [if_true, Res.ok.injEq, Prod.mk.injEq] at h
      rw [← h.1, ← h.2]
      exact ⟨rfl, rfl, _, rfl⟩
    | false =>
      simp only [Bool.false_eq_true, if_false] at h
      cases hq : frame_creating LD_MAX recv_data len frame heap with
      | ok q =>
        simp only [hq, Res.bind_ok, Res.ok.injEq, Prod.mk.injEq] at h
        rw [← h.1, ← h.2]
        exact ⟨rfl, rfl, _, rfl⟩
      | fault => simp [hq] at h
      | timeout => simp [hq] at h
  | fault => simp [hb] at h
  | timeout => simp [hb] at h

theorem stomp_recv_data_some_zero (LD_MAX : Nat) (recv_data : List Char) (sock : Int)
    (frame : frame_t) (bucket : List frame_t) (heap : List Bool) :
    stomp_recv_data LD_MAX recv_data 0 sock (some frame) bucket heap =
      .ok (RET_SUCCESS, { cache := none,
                          bucket := bucket ++ [{ frame with status := STATUS_IN_BUCKET }],
                          heap := heap }) := by
  simp [stomp_recv_data, frame_create_finish, SET_STATUS, CLR_STATUS]

theorem stomp_recv_data_none (LD_MAX : Nat) (recv_data : List Char) (len : Int)
    (sock : Int) (bucket : List frame_t) (heap : List Bool) :
    stomp_recv_data LD_MAX recv_data len sock none bucket heap =
      match alloc_frame sock heap with
      | (none, heap1) => .ok (RET_ERROR, { cache := none, bucket := bucket, heap := heap1 })
      | (some frame, heap1) =>
        stomp_recv_data LD_MAX recv_data len sock (some frame) bucket heap1 := by
  unfold stomp_recv_data
  rcases alloc_frame sock heap with ⟨_ | frame, heap1⟩ <;> rfl

theorem stomp_recv_data_ne_zero (LD_MAX : Nat) (recv_data : List Char) (len : Int)
    (sock : Int) (cache : Option frame_t) (bucket : List frame_t) (heap : List Bool)
    (ret : Int) (st : recv_state) (hlen : len ≠ 0)
    (h : stomp_recv_data LD_MAX recv_data len sock cache bucket heap = .ok (ret, st)) :
    st.bucket = bucket ∧
    ((cache ≠ none ∨ (malloc heap).1 = true) → ret = RET_SUCCESS ∧ ∃ g, st.cache = some g) ∧
    ((cache = none ∧ (malloc heap).1 = false) → ret = RET_ERROR ∧ st.cache = none) := by
  cases cache with
  | some frame =>
    obtain ⟨h1, h2, h3⟩ := stomp_recv_data_some_ne_zero LD_MAX recv_data len sock frame
      bucket heap ret st hlen h
    exact ⟨h2, fun _ => ⟨h1, h3⟩, fun hc => by simp at hc⟩
  | none =>
    rw [stomp_recv_data_none] at h
    unfold alloc_frame at h
    cases hm : malloc heap with
    | mk b heap1 =>
      cases b with
      | false =>
        simp only [hm, Res.ok.injEq, Prod.mk.injEq] at h
        rw [← h.1, ← h.2]
        exact ⟨rfl, fun hc => by simp at hc, fun _ => ⟨rfl, rfl⟩⟩
      | true =>
        simp only [hm] at h
        obtain ⟨h1, h2, h3⟩ := stomp_recv_data_some_ne_zero LD_MAX recv_data len sock _
          bucket heap1 ret st hlen h
        exact ⟨h2, fun _ => ⟨h1, h3⟩, fun hc => by simp at hc⟩

theorem takeWhile_append_dropWhile_length {α : Type} (p : α → Bool) (l : List α) :
    (l.takeWhile p).length + (l.dropWhile p).length = l.length := by
  rw [← List.length_append, List.takeWhile_append_dropWhile]

theorem strtok_length (s : List Char) (k : Nat) (mem : List Char)
    (h : strtok s = .ok (some (k, mem))) : mem.length = s.length ∧ 0 < s.length := by
  unfold strtok at h
  simp only at h
  generalize hk : (s.takeWhile fun c => decide (c = LF)).length = k0 at h
  generalize (fun c : Char => decide (c ≠ LF ∧ c ≠ NUL)) = p at h
  have hk0 : k0 ≤ s.length := by
    rw [← hk]
    exact (List.takeWhile_prefix _).length_le
  cases hd : s.drop k0 with
  | nil => simp [hd] at h
  | cons c cs =>
    simp only [hd] at h
    by_cases hc : c = NUL
    · simp [hc] at h
    · simp only [hc, if_false] at h
      cases hw : (c :: cs).dropWhile p with
      | nil => simp [hw] at h
      | cons d rest =>
        simp only [hw, Res.ok.injEq, Option.some.injEq, Prod.mk.injEq] at h
        have hlen := takeWhile_append_dropWhile_length p (c :: cs)
        rw [hw] at hlen
        have hdl : (s.drop k0).length = s.length - k0 := List.length_drop _ _
        rw [hd] at hdl
        have htk : (s.take k0).length = k0 := List.length_take_of_le hk0
        constructor
        · rw [← h.2]
          simp only [List.length_append, List.length_cons, htk] at hlen hdl ⊢
          omega
        · simp only [List.length_cons] at hdl
          omega

theorem frame_creating_line_no_timeout (LD_MAX : Nat) (line : List Char) (attrlen : Nat)
    (frame : frame_t) (heap : List Bool) :
    frame_creating_line LD_MAX line attrlen frame heap ≠ .timeout := by
  unfold frame_creating_line frame_setname frame_setdata memcpy
  rcases malloc heap with ⟨_ | _, heap1⟩ <;>
    (repeat' split) <;> simp [Res.bind]

theorem strlen_no_timeout (s : List Char) : strlen s ≠ .timeout := by
  induction s with
  | nil => simp [strlen]
  | cons x xs ih =>
    rw [strlen]
    split
    · simp
    · cases h : strlen xs with
      | ok n => simp
      | fault => simp
      | timeout => exact absurd h ih

theorem strtok_no_timeout (s : List Char) : strtok s ≠ .timeout := by
  unfold strtok
  simp only
  repeat' split
  all_goals simp

theorem frame_creating_loop_no_timeout (LD_MAX fuel : Nat) (pointer : List Char)
    (frame : frame_t) (heap : List Bool) (hfuel : pointer.length < fuel) :
    frame_creating_loop LD_MAX fuel pointer frame heap ≠ .timeout := by
  induction fuel generalizing pointer frame heap with
  | zero => omega
  | succ n ih =>
    rw [frame_creating_loop]
    cases ht : strtok pointer with
    | ok t =>
      cases t with
      | none => simp
      | some km =>
        obtain ⟨k, mem⟩ := km
        obtain ⟨hlen, hpos⟩ := strtok_length pointer k mem ht
        simp only [Res.bind_ok]
        cases hl : strlen (mem.drop k) with
        | ok attrlen =>
          simp only [Res.bind_ok]
          cases hq : frame_creating_line LD_MAX (mem.drop k) attrlen frame heap with
          | ok q =>
            simp only [Res.bind_ok]
            apply ih
            rw [List.length_drop]
            omega
          | fault => simp
          | timeout => exact absurd hq (frame_creating_line_no_timeout _ _ _ _ _)
        | fault => simp
        | timeout => exact absurd hl (strlen_no_timeout _)
    | fault => simp
    | timeout => exact absurd ht (strtok_no_timeout _)

theorem stomp_recv_data_no_timeout (LD_MAX : Nat) (recv_data : List Char) (len : Int)
    (sock : Int) (cache : Option frame_t) (bucket : List frame_t) (heap : List Bool) :
    stomp_recv_data LD_MAX recv_data len sock cache bucket heap ≠ .timeout := by
  have key : ∀ (frame : frame_t) (heap1 : List Bool),
      stomp_recv_data LD_MAX recv_data len sock (some frame) bucket heap1 ≠ .timeout := by
    intro frame heap1
    unfold stomp_recv_data
    simp only
    by_cases hlen : len = 0
    · simp [hlen]
    · simp only [hlen, if_false]
      cases hb : is_boundary recv_data len with
      | ok b =>
        cases b with
        | true => simp
        | false =>
          simp only [Res.bind_ok, Bool.false_eq_true, if_false]
          cases hq : frame_creating LD_MAX recv_data len frame heap1 with
          | ok q => simp
          | fault => simp
          | timeout =>
            exact absurd hq (frame_creating_loop_no_timeout LD_MAX _ recv_data frame heap1
              (Nat.lt_succ_self _))
      | fault => simp
      | timeout =>
        unfold is_boundary at hb
        split at hb
        · split at hb <;> simp at hb
        · simp at hb
  cases cache with
  | some frame => exact key frame heap
  | none =>
    rw [stomp_recv_data_none]
    rcases alloc_frame sock heap with ⟨_ | frame, heap1⟩
    · simp
    · exact key frame heap1

theorem frame_creating_line_sock (LD_MAX : Nat) (line : List Char) (attrlen : Nat)
    (frame : frame_t) (heap : List Bool) (r : frame_t × List Bool)
    (h : frame_creating_line LD_MAX line attrlen frame heap = .ok r) :
    r.1.sock = frame.sock := by
  unfold frame_creating_line at h
  split at h
  · unfold frame_setname at h
    cases hc : memcpy frame.name line attrlen with
    | ok name =>
      simp only [hc, Res.bind_ok, Res.ok.injEq] at h
      rw [← h]
      rfl
    | fault => simp [hc] at h
    | timeout => simp [hc] at h
  · split at h
    · cases hc : frame_setdata LD_MAX line attrlen frame.h_attrs heap with
      | ok q =>
        simp only [hc, Res.bind_ok, Res.ok.injEq] at h
        rw [← h]
      | fault => simp [hc] at h
      | timeout => simp [hc] at h
    · split at h
      · cases hc : frame_setdata LD_MAX line attrlen frame.h_data heap with
        | ok q =>
          simp only [hc, Res.bind_ok, Res.ok.injEq] at h
          rw [← h]
        | fault => simp [hc] at h
        | timeout => simp [hc] at h
      · simp only [Res.ok.injEq] at h
        rw [← h]

theorem frame_creating_loop_sock (LD_MAX fuel : Nat) (pointer : List Char) (frame : frame_t)
    (heap : List Bool) (r : frame_t × List Bool)
    (h : frame_creating_loop LD_MAX fuel pointer frame heap = .ok r) :
    r.1.sock = frame.sock := by
  induction fuel generalizing pointer frame heap with
  | zero => simp [frame_creating_loop] at h
  | succ n ih =>
    rw [frame_creating_loop] at h
    cases ht : strtok pointer with
    | ok t =>
      cases t with
      | none =>
        simp only [ht, Res.bind_ok, Res.ok.injEq] at h
        rw [← h]
      | some km =>
        obtain ⟨k, mem⟩ := km
        simp only [ht, Res.bind_ok] at h
        cases hl : strlen (mem.drop k) with
        | ok attrlen =>
          simp only [hl, Res.bind_ok] at h
          cases hq : frame_creating_line LD_MAX (mem.drop k) attrlen frame heap with
          | ok q =>
            simp only [hq, Res.bind_ok] at h
            rw [ih _ q.1 q.2 h]
            exact frame_creating_line_sock LD_MAX _ attrlen frame heap q hq
          | fault => simp [hq] at h
          | timeout => simp [hq] at h
        | fault => simp [hl] at h
        | timeout => simp [hl] at h
    | fault => simp [ht] at h
    | timeout => simp [ht] at h

theorem stomp_recv_data_sock (LD_MAX : Nat) (recv_data : List Char) (len : Int)
    (sock : Int) (frame : frame_t) (bucket : List frame_t) (heap : List Bool) (ret : Int)
    (st : recv_state) (hlen : len ≠ 0)
    (h : stomp_recv_data LD_MAX recv_data len sock (some frame) bucket heap = .ok (ret, st)) :
    ∃ g, st.cache = some g ∧ g.sock = frame.sock := by
  unfold stomp_recv_data at h
  simp only [hlen, if_false] at h
  cases hb : is_boundary recv_data len with
  | ok b =>
    simp only [hb, Res.bind_ok] at h
    cases b with
    | true =>
      simp only [if_true, Res.ok.injEq, Prod.mk.injEq] at h
      rw [← h.2]
      exact ⟨_, rfl, rfl⟩
    | false =>
      simp only [Bool.false_eq_true, if_false] at h
      cases hq : frame_creating LD_MAX recv_data len frame heap with
      | ok q =>
        simp only [hq, Res.bind_ok, Res.ok.injEq, Prod.mk.injEq] at h
        rw [← h.2]
        exact ⟨_, rfl, frame_creating_loop_sock LD_MAX _ _ frame heap q hq⟩
      | fault => simp [hq] at h
      | timeout => simp [hq] at h
  | fault => simp [hb] at h
  | timeout => simp [hb] at h

/-- C9: the end-of-frame chunk is the only path that enqueues. A call of
`stomp_recv_data` with `len != 0` that returns leaves the bucket as it was, and,
when the cache slot held a frame or the frame could be allocated, returns
`RET_SUCCESS` with a frame in the cache slot, with the sock of the frame that was
there (when the allocation fails it returns `RET_ERROR` with the cache slot still
empty). A call with `len == 0` appends one
frame at the tail of the bucket, after the frames already there: the frame of the
cache slot, or the newly allocated one when the slot was empty, with status
`STATUS_IN_BUCKET`; it returns `RET_SUCCESS` and the cache slot is empty. No call
uses up the iteration budget of the model. -/
theorem enqueue_only_at_eof (LD_MAX : Nat) (recv_data : List Char) (len : Int) (sock : Int)
    (cache : Option frame_t) (bucket : List frame_t) (heap : List Bool) :
    stomp_recv_data LD_MAX recv_data len sock cache bucket heap ≠ .timeout ∧
    (len ≠ 0 → ∀ ret st,
      stomp_recv_data LD_MAX recv_data len sock cache bucket heap = .ok (ret, st) →
        st.bucket = bucket ∧
        ((cache ≠ none ∨ (malloc heap).1 = true) → ret = RET_SUCCESS ∧ ∃ g, st.cache = some g) ∧
        ((cache = none ∧ (malloc heap).1 = false) → ret = RET_ERROR ∧ st.cache = none) ∧
        (∀ frame, cache = some frame → ∃ g, st.cache = some g ∧ g.sock = frame.sock)) ∧
    (∀ frame, cache = some frame →
      stomp_recv_data LD_MAX recv_data 0 sock cache bucket heap =
        .ok (RET_SUCCESS, { cache := none,
                            bucket := bucket ++ [{ frame with status := STATUS_IN_BUCKET }],
                            heap := heap })) ∧
    (cache = none → (malloc heap).1 = true →
      stomp_recv_data LD_MAX recv_data 0 sock cache bucket heap =
        .ok (RET_SUCCESS,
          { cache := none,
            bucket := bucket ++ [{ name := List.replicate FNAME_LEN NUL, sock := sock,
                                   status := STATUS_IN_BUCKET, h_attrs := [], h_data := [] }],
            heap := (malloc heap).2 })) := by
  refine ⟨stomp_recv_data_no_timeout LD_MAX recv_data len sock cache bucket heap, ?_, ?_, ?_⟩
  · intro hlen ret st h
    obtain ⟨h1, h2, h3⟩ :=
      stomp_recv_data_ne_zero LD_MAX recv_data len sock cache bucket heap ret st hlen h
    refine ⟨h1, h2, h3, ?_⟩
    intro frame hc
    rw [hc] at h
    exact stomp_recv_data_sock LD_MAX recv_data len sock frame bucket heap ret st hlen h
  · intro frame hc
    rw [hc]
    exact stomp_recv_data_some_zero LD_MAX recv_data sock frame bucket heap
  · intro hc hm
    rw [hc, stomp_recv_data_none]
    unfold alloc_frame
    cases hm1 : malloc heap with
    | mk b heap1 =>
      rw [hm1] at hm
      simp only at hm
      subst hm
      simp only []
      rw [stomp_recv_data_some_zero]

/-- C9 at the chunk "host:localhost\n\nhello\n" on a frame in the header phase: the
bucket is as before and the cache slot holds a frame. -/
theorem enqueue_only_at_eof_witness :
    ({ cache := some header_frame_fed, bucket := [], heap := [] } : recv_state).bucket = [] ∧
    ((some header_frame ≠ none ∨ (malloc []).1 = true) → RET_SUCCESS = RET_SUCCESS ∧
      ∃ g, ({ cache := some header_frame_fed, bucket := [], heap := [] } : recv_state).cache =
        some g) ∧
    ((some header_frame = none ∧ (malloc []).1 = false) → RET_SUCCESS = RET_ERROR ∧
      ({ cache := some header_frame_fed, bucket := [], heap := [] } : recv_state).cache = none) ∧
    (∀ frame, some header_frame = some frame →
      ∃ g, ({ cache := some header_frame_fed, bucket := [], heap := [] } : recv_state).cache =
        some g ∧ g.sock = frame.sock) :=
  (enqueue_only_at_eof 16
    ("host:localhost".toList ++ [LF, LF] ++ "hello".toList ++ [LF, NUL]) 22 3
    (some header_frame) [] []).2.1 (by decide) RET_SUCCESS _ (by decide)

/-! ## C8: the status only moves forward -/

theorem assembling_le (s : Nat) (h : assembling s) : s ≤ STATUS_INPUT_BODY := by
  rcases h with h | h | h <;> rw [h] <;> decide

theorem stomp_recv_data_bucket (LD_MAX : Nat) (recv_data : List Char) (len : Int)
    (sock : Int) (cache : Option frame_t) (bucket : List frame_t) (heap : List Bool)
    (ret : Int) (st : recv_state)
    (h : stomp_recv_data LD_MAX recv_data len sock cache bucket heap = .ok (ret, st)) :
    bucket <+: st.bucket := by
  by_cases hlen : len = 0
  · subst hlen
    cases cache with
    | some frame =>
      rw [stomp_recv_data_some_zero, Res.ok.injEq, Prod.mk.injEq] at h
      rw [← h.2]
      exact List.prefix_append _ _
    | none =>
      rw [stomp_recv_data_none] at h
      rcases ha : alloc_frame sock heap with ⟨_ | frame, heap1⟩
      · simp only [ha, Res.ok.injEq, Prod.mk.injEq] at h
        rw [← h.2]
      · simp only [ha] at h
        rw [stomp_recv_data_some_zero, Res.ok.injEq, Prod.mk.injEq] at h
        rw [← h.2]
        exact List.prefix_append _ _
  · rw [(stomp_recv_data_ne_zero LD_MAX recv_data len sock cache bucket heap ret st hlen h).1]

theorem tracked_step (LD_MAX : Nat) (pos : Nat) (c : chunk) (st : recv_state) (f : frame_t)
    (r : Int × recv_state) (hinv : tracked_is pos st f)
    (h : stomp_recv_data LD_MAX c.recv_data c.len c.sock st.cache st.bucket st.heap = .ok r) :
    ∃ g, tracked_is pos r.2 g ∧ f.status ≤ g.status := by
  obtain ⟨ret, st1⟩ := r
  obtain ⟨htr, hcase⟩ := hinv
  rcases hcase with ⟨hpos, hcache, hph⟩ | ⟨hpos, hst⟩
  · -- the frame is in the cache slot
    rw [hcache] at h
    by_cases hlen : c.len = 0
    · rw [hlen, stomp_recv_data_some_zero, Res.ok.injEq, Prod.mk.injEq] at h
      refine ⟨{ f with status := STATUS_IN_BUCKET }, ⟨?_, Or.inr ⟨?_, rfl⟩⟩, ?_⟩
      · rw [← h.2]
        simp [tracked, ← hpos]
      · rw [← h.2]
        simp [← hpos]
      · exact Nat.le_trans (assembling_le _ hph)
          (by decide : STATUS_INPUT_BODY ≤ STATUS_IN_BUCKET)
    · by_cases hb : c.len = 1 ∧ c.recv_data.head? = some LF
      · obtain ⟨h1, h2⟩ := hb
        obtain ⟨x, xs, hx⟩ : ∃ x xs, c.recv_data = x :: xs := by
          cases hc : c.recv_data with
          | nil => simp [hc] at h2
          | cons x xs => exact ⟨x, xs, rfl⟩
        rw [hx] at h2 h
        simp only [List.head?_cons, Option.some.injEq] at h2
        rw [h1, h2, stomp_recv_data_boundary, Res.ok.injEq, Prod.mk.injEq] at h
        refine ⟨{ f with status := STATUS_INPUT_BODY }, ⟨?_, Or.inl ⟨?_, ?_, Or.inr (Or.inr rfl)⟩⟩,
          assembling_le _ hph⟩
        · rw [← h.2]
          simp [tracked, ← hpos]
        · rw [← h.2]
          exact hpos
        · rw [← h.2]
      · obtain ⟨g, hg, hgrow⟩ := stomp_recv_data_grows LD_MAX c.recv_data c.len c.sock f
          st.bucket st.heap ret st1 hph hlen hb h
        have hbk := (stomp_recv_data_some_ne_zero LD_MAX c.recv_data c.len c.sock f
          st.bucket st.heap ret st1 hlen h).2.1
        refine ⟨g, ⟨?_, Or.inl ⟨?_, hg, hgrow.1⟩⟩, hgrow.2.1⟩
        · simp [tracked, hbk, ← hpos, hg]
        · simp only [hbk, hpos]
  · -- the frame is in the bucket
    have hget : st.bucket[pos]? = some f := by
      unfold tracked at htr
      cases hq : st.bucket[pos]? with
      | some q => rw [hq] at htr; exact htr
      | none =>
        rw [List.getElem?_eq_none_iff] at hq
        omega
    obtain ⟨t, ht⟩ := stomp_recv_data_bucket LD_MAX _ _ _ _ _ _ ret st1 h
    have hget1 : st1.bucket[pos]? = some f := by
      rw [← ht, List.getElem?_append_left hpos]
      exact hget
    refine ⟨f, ⟨?_, Or.inr ⟨?_, hst⟩⟩, Nat.le_refl _⟩
    · simp [tracked, hget1]
    · rw [← ht, List.length_append]
      omega

theorem tracked_trace (LD_MAX : Nat) (pos : Nat) (cs : List chunk) (st : recv_state)
    (f : frame_t) (hinv : tracked_is pos st f) :
    ∃ trace : List Nat,
      (recv_states LD_MAX cs st).map (fun s => (tracked pos s).map fun g => g.status) =
        trace.map some ∧
      List.Chain' (fun a b => a ≤ b) (f.status :: trace) ∧
      ∀ s ∈ trace, assembling s ∨ s = STATUS_IN_BUCKET := by
  induction cs generalizing st f with
  | nil => exact ⟨[], by simp [recv_states], by simp, by simp⟩
  | cons c cs ih =>
    rw [recv_states]
    cases h : stomp_recv_data LD_MAX c.recv_data c.len c.sock st.cache st.bucket st.heap with
    | ok r =>
      obtain ⟨g, hg, hle⟩ := tracked_step LD_MAX pos c st f r hinv h
      obtain ⟨trace, h1, h2, h3⟩ := ih r.2 g hg
      refine ⟨g.status :: trace, ?_, ?_, ?_⟩
      · simp only [List.map_cons, h1, hg.1, Option.map_some']
      · exact List.Chain'.cons hle h2
      · intro s hs
        rcases List.mem_cons.1 hs with rfl | hs
        · rcases hg.2 with ⟨_, _, hph⟩ | ⟨_, hq⟩
          · exact Or.inl hph
          · exact Or.inr hq
        · exact h3 s hs
    | fault => exact ⟨[], by simp, by simp, by simp⟩
    | timeout => exact ⟨[], by simp, by simp, by simp⟩

/-- C8: the status of a frame only moves forward. The flags are ordered
`STATUS_BORN < STATUS_INPUT_HEADER < STATUS_INPUT_BODY < STATUS_IN_BUCKET`. For a
frame under assembly in the cache slot and every chunk, the frame is found after a
call of `stomp_recv_data` that returns (in the cache slot, or at the tail of the
bucket once enqueued) with a status that is not smaller; and over every sequence of
calls the statuses of that frame after each call, all of them among the four
flags, never decrease. -/
theorem status_only_moves_forward (LD_MAX : Nat) (frame : frame_t) (bucket : List frame_t)
    (heap : List Bool) (hph : assembling frame.status) :
    (STATUS_BORN < STATUS_INPUT_HEADER ∧ STATUS_INPUT_HEADER < STATUS_INPUT_BODY ∧
      STATUS_INPUT_BODY < STATUS_IN_BUCKET) ∧
    (∀ (c : chunk) (r : Int × recv_state),
      stomp_recv_data LD_MAX c.recv_data c.len c.sock (some frame) bucket heap = .ok r →
        ∃ g, tracked bucket.length r.2 = some g ∧ frame.status ≤ g.status) ∧
    (∀ cs : List chunk, ∃ trace : List Nat,
      (recv_states LD_MAX cs { cache := some frame, bucket := bucket, heap := heap }).map
          (fun s => (tracked bucket.length s).map fun g => g.status) = trace.map some ∧
        List.Chain' (fun a b => a ≤ b) (frame.status :: trace) ∧
        ∀ s ∈ trace, assembling s ∨ s = STATUS_IN_BUCKET) := by
  have hinv : tracked_is bucket.length { cache := some frame, bucket := bucket, heap := heap }
      frame := ⟨by simp [tracked], Or.inl ⟨rfl, rfl, hph⟩⟩
  refine ⟨by decide, ?_, ?_⟩
  · intro c r h
    obtain ⟨g, hg, hle⟩ := tracked_step LD_MAX bucket.length c _ frame r hinv h
    exact ⟨g, hg.1, hle⟩
  · intro cs
    exact tracked_trace LD_MAX bucket.length cs _ frame hinv

/-- C8 at a frame in the header phase that is fed a header line, the lone line
terminator, a body line, the end of frame and the first line of the next frame. -/
theorem status_only_moves_forward_witness :
    ∃ trace : List Nat,
      (recv_states 16
          [line_chunk 3 "host:localhost".toList, boundary_chunk 3, line_chunk 3 "hello".toList,
            eof_chunk 3, line_chunk 3 "SEND".toList]
          { cache := some header_frame, bucket := [], heap := [] }).map
          (fun s => (tracked ([] : List frame_t).length s).map fun g => g.status) =
        trace.map some ∧
        List.Chain' (fun a b => a ≤ b) (header_frame.status :: trace) ∧
        ∀ s ∈ trace, assembling s ∨ s = STATUS_IN_BUCKET :=
  (status_only_moves_forward 16 header_frame [] [] (Or.inr (Or.inl rfl))).2.2
    [line_chunk 3 "host:localhost".toList, boundary_chunk 3, line_chunk 3 "hello".toList,
      eof_chunk 3, line_chunk 3 "SEND".toList]

/-- The statuses of a frame in the header phase after each of five calls: a header
line, the lone line terminator, a body line, the end of frame and the first line of
the next frame. -/
theorem status_trace_example :
    (recv_states 16
        [line_chunk 3 "host:localhost".toList, boundary_chunk 3, line_chunk 3 "hello".toList,
          eof_chunk 3, line_chunk 3 "SEND".toList]
        { cache := some header_frame, bucket := [], heap := [] }).map
        (fun s => (tracked 0 s).map fun g => g.status) =
      [some STATUS_INPUT_HEADER, some STATUS_INPUT_BODY, some STATUS_INPUT_BODY,
        some STATUS_IN_BUCKET, some STATUS_IN_BUCKET] := by
  decide

/-! ## C10: header iteration stops at the first failure -/

theorem strlen_ok (s : List Char) (n : Nat) (h : strlen s = .ok n) :
    ∃ p r, s = p ++ NUL :: r ∧ (∀ c ∈ p, c ≠ NUL) ∧ n = p.length := by
  induction s generalizing n with
  | nil => simp [strlen] at h
  | cons x xs ih =>
    rw [strlen] at h
    by_cases hx : x = NUL
    · simp only [hx, if_true, Res.ok.injEq] at h
      exact ⟨[], xs, by simp [hx], by simp, h.symm⟩
    · simp only [hx, if_false] at h
      cases hm : strlen xs with
      | ok m =>
        simp only [hm, Res.bind_ok, Res.ok.injEq] at h
        obtain ⟨p, r, hp, hnul, hlen⟩ := ih m hm
        refine ⟨x :: p, r, by simp [hp], ?_, by simp [← h, hlen]⟩
        intro c hc
        rcases List.mem_cons.1 hc with rfl | hc
        · exact hx
        · exact hnul c hc
      | fault => simp [hm] at h
      | timeout => simp [hm] at h

theorem strncmp_ok_iff (p : List Char) (hp : ∀ c ∈ p, c ≠ NUL) (a r : List Char) (c : Int)
    (h : strncmp a (p ++ r) p.length = .ok c) : c = 0 ↔ p <+: a := by
  induction p generalizing a with
  | nil => simp [strncmp] at h; simp [h]
  | cons x xs ih =>
    cases a with
    | nil => simp [strncmp] at h
    | cons y ys =>
      have hx : x ≠ NUL := hp x (List.mem_cons_self _ _)
      by_cases hyx : y = x
      · subst hyx
        simp only [List.cons_append, List.length_cons, strncmp, ne_eq, not_true_eq_false,
          if_false, hx] at h
        simp [ih (fun c hc => hp c (List.mem_cons_of_mem _ hc)) ys h]
      · simp only [List.cons_append, List.length_cons, strncmp, ne_eq, hyx, not_false_eq_true,
          if_true, Res.ok.injEq] at h
        constructor
        · intro h0
          rw [h0] at h
          exact absurd h (char_sub_ne_zero y x hyx)
        · intro hpre
          exact absurd (List.cons_prefix_cons.1 hpre).1.symm hyx

theorem calls_ok_skip (stop : Bool) (new : List header_call) (k : Nat × List Char)
    (expected : List (Nat × List Char)) (h : calls_ok stop (new) expected) (c : header_call)
    (hk : c.key = k) (hc : c.ret ≠ RET_ERROR) : calls_ok stop (c :: new) (k :: expected) := by
  obtain ⟨h1, h2, h3⟩ := h
  refine ⟨?_, ?_, ?_⟩
  · simpa [hk] using h1
  · intro hs
    obtain ⟨a, b⟩ := h2 hs
    refine ⟨?_, by simp [hk, b]⟩
    intro d hd
    rcases List.mem_cons.1 hd with rfl | hd
    · exact hc
    · exact a d hd
  · intro hs
    obtain ⟨init, last, e1, e2, e3⟩ := h3 hs
    refine ⟨c :: init, last, by simp [e1], e2, ?_⟩
    intro d hd
    rcases List.mem_cons.1 hd with rfl | hd
    · exact hc
    · exact e3 d hd

theorem iterate_header_line_ok {σ : Type} (line : linedata_t)
    (handlers : List (stomp_header_handler_t σ)) (i : Nat) (data : σ) (calls : List header_call)
    (r : Bool × σ × List header_call)
    (h : iterate_header_line line i handlers data calls = .ok r) :
    ∃ new, r.2.2 = calls ++ new ∧ calls_ok r.1 new (line_matches line i handlers) := by
  induction handlers generalizing i data calls with
  | nil =>
    simp only [iterate_header_line, Res.ok.injEq] at h
    rw [← h]
    exact ⟨[], by simp, by simp [calls_ok, line_matches]⟩
  | cons hd tl ih =>
    rw [iterate_header_line] at h
    cases hn : strlen hd.name with
    | ok n =>
      obtain ⟨p, q, hname, hp, hlen⟩ := strlen_ok hd.name n hn
      have hcs : cstr hd.name = p := by rw [hname]; exact cstr_append_NUL p q hp
      simp only [hn, Res.bind_ok] at h
      cases hc : strncmp line.data hd.name n with
      | ok c =>
        have hiff : c = 0 ↔ p <+: line.data := by
          rw [hname, hlen] at hc
          exact strncmp_ok_iff p hp line.data _ c hc
        simp only [hc, Res.bind_ok] at h
        by_cases h0 : c = 0
        · have hpre : (cstr hd.name).isPrefixOf (cstr line.data) = true := by
            rw [hcs, List.isPrefixOf_iff_prefix, prefix_cstr_iff p _ hp]
            exact hiff.1 h0
          simp only [h0, if_true] at h
          cases hf : hd.handler with
          | none => simp [hf] at h
          | some fn =>
            simp only [hf] at h
            rw [line_matches, if_pos hpre, hcs, ← hlen]
            by_cases he : (fn (line.data.drop n) data).1 = RET_ERROR
            · simp only [he, if_true, Res.ok.injEq] at h
              rw [← h]
              refine ⟨[{ entry := i, arg := line.data.drop n, ret := RET_ERROR }], rfl, ?_, ?_, ?_⟩
              · simp [header_call.key]
              · intro hs; simp at hs
              · intro _
                exact ⟨[], _, rfl, rfl, by simp⟩
            · simp only [he, if_false] at h
              obtain ⟨new, e1, e2⟩ := ih (i + 1) _ _ h
              refine ⟨{ entry := i, arg := line.data.drop n,
                        ret := (fn (line.data.drop n) data).1 } :: new, ?_, ?_⟩
              · rw [e1]; simp
              · exact calls_ok_skip r.1 new _ _ e2 _ rfl he
        · have hpre : (cstr hd.name).isPrefixOf (cstr line.data) = false := by
            rw [hcs, ← Bool.not_eq_true, List.isPrefixOf_iff_prefix, prefix_cstr_iff p _ hp]
            exact fun hh => h0 (hiff.2 hh)
          simp only [h0, if_false] at h
          rw [line_matches, hpre]
          simpa using ih (i + 1) _ _ h
      | fault => simp [hc] at h
      | timeout => simp [hc] at h
    | fault => simp [hn] at h
    | timeout => simp [hn] at h

theorem calls_ok_append (stop : Bool) (new1 new2 : List header_call)
    (exp1 exp2 : List (Nat × List Char)) (h1 : ∀ c ∈ new1, c.ret ≠ RET_ERROR)
    (h2 : new1.map header_call.key = exp1) (h : calls_ok stop new2 exp2) :
    calls_ok stop (new1 ++ new2) (exp1 ++ exp2) := by
  obtain ⟨a1, a2, a3⟩ := h
  refine ⟨?_, ?_, ?_⟩
  · rw [List.map_append, h2]
    exact (List.prefix_append_right_inj exp1).2 a1
  · intro hs
    obtain ⟨b1, b2⟩ := a2 hs
    refine ⟨?_, by rw [List.map_append, h2, b2]⟩
    intro c hc
    rcases List.mem_append.1 hc with hc | hc
    · exact h1 c hc
    · exact b1 c hc
  · intro hs
    obtain ⟨init, last, e1, e2, e3⟩ := a3 hs
    refine ⟨new1 ++ init, last, by rw [e1, List.append_assoc], e2, ?_⟩
    intro c hc
    rcases List.mem_append.1 hc with hc | hc
    · exact h1 c hc
    · exact e3 c hc

theorem calls_ok_stop (new : List header_call) (exp1 exp2 : List (Nat × List Char))
    (h : calls_ok true new exp1) : calls_ok true new (exp1 ++ exp2) :=
  ⟨h.1.trans (List.prefix_append _ _), fun hs => by simp at hs, h.2.2⟩

theorem iterate_header_loop_ok {σ : Type} (handlers : List (stomp_header_handler_t σ))
    (h_header : List linedata_t) (data : σ) (calls : List header_call)
    (r : Int × σ × List header_call)
    (h : iterate_header_loop handlers h_header data calls = .ok r) :
    ∃ new, r.2.2 = calls ++ new ∧ (r.1 = RET_ERROR ∨ r.1 = RET_SUCCESS) ∧
      calls_ok (decide (r.1 = RET_ERROR)) new (all_matches handlers h_header) := by
  induction h_header generalizing data calls with
  | nil =>
    simp only [iterate_header_loop, Res.ok.injEq] at h
    rw [← h]
    have hne : ¬ RET_SUCCESS = RET_ERROR := by decide
    exact ⟨[], by simp, Or.inr rfl, by simp [calls_ok, all_matches, hne]⟩
  | cons line ls ih =>
    rw [iterate_header_loop] at h
    cases hq : iterate_header_line line 0 handlers data calls with
    | ok q =>
      obtain ⟨new1, e1, e2⟩ := iterate_header_line_ok line handlers 0 data calls q hq
      simp only [hq, Res.bind_ok] at h
      rw [all_matches]
      cases hstop : q.1 with
      | true =>
        simp only [hstop, if_true, Res.ok.injEq] at h
        rw [← h]
        rw [hstop] at e2
        exact ⟨new1, e1, Or.inl rfl, by simpa using calls_ok_stop new1 _ _ e2⟩
      | false =>
        simp only [hstop, Bool.false_eq_true, if_false] at h
        rw [hstop] at e2
        obtain ⟨new2, f1, f2, f3⟩ := ih _ _ h
        obtain ⟨g1, g2⟩ := e2.2.1 rfl
        refine ⟨new1 ++ new2, by rw [f1, e1, List.append_assoc], f2, ?_⟩
        exact calls_ok_append _ new1 new2 _ _ g1 g2 f3
    | fault => simp [hq] at h
    | timeout => simp [hq] at h

theorem iterate_header_line_returns {σ : Type} (line : linedata_t)
    (handlers : List (stomp_header_handler_t σ)) (i : Nat) (data : σ) (calls : List header_call)
    (hwf : header_table_ok handlers [line]) :
    ∃ r, iterate_header_line line i handlers data calls = .ok r := by
  induction handlers generalizing i data calls with
  | nil => exact ⟨_, rfl⟩
  | cons hd tl ih =>
    have htl : header_table_ok tl [line] := fun x hx => hwf x (List.mem_cons_of_mem _ hx)
    obtain ⟨hfn, p, q, hname, hp, hlen⟩ := hwf hd (List.mem_cons_self _ _)
    obtain ⟨c, hc, _⟩ := strncmp_zero_iff p hp line.data (NUL :: q)
      (hlen line (List.mem_cons_self _ _))
    obtain ⟨fn, hf⟩ := Option.ne_none_iff_exists'.1 hfn
    rw [iterate_header_line, hname, strlen_append_NUL p q hp]
    simp only [Res.bind_ok, hc, hf]
    by_cases h0 : c = 0
    · simp only [h0, if_true]
      by_cases he : (fn (line.data.drop p.length) data).1 = RET_ERROR
      · simp only [he, if_true]
        exact ⟨_, rfl⟩
      · simp only [he, if_false]
        exact ih _ _ _ htl
    · simp only [h0, if_false]
      exact ih _ _ _ htl

theorem iterate_header_loop_returns {σ : Type} (handlers : List (stomp_header_handler_t σ))
    (h_header : List linedata_t) (data : σ) (calls : List header_call)
    (hwf : header_table_ok handlers h_header) :
    ∃ r, iterate_header_loop handlers h_header data calls = .ok r := by
  induction h_header generalizing data calls with
  | nil => exact ⟨_, rfl⟩
  | cons line ls ih =>
    have h1 : header_table_ok handlers [line] := by
      intro x hx
      obtain ⟨a, p, q, b, c, d⟩ := hwf x hx
      exact ⟨a, p, q, b, c, fun l hl => d l (by
        rw [List.mem_singleton.1 hl]; exact List.mem_cons_self _ _)⟩
    have h2 : header_table_ok handlers ls := by
      intro x hx
      obtain ⟨a, p, q, b, c, d⟩ := hwf x hx
      exact ⟨a, p, q, b, c, fun l hl => d l (List.mem_cons_of_mem _ hl)⟩
    obtain ⟨q, hq⟩ := iterate_header_line_returns line handlers 0 data calls h1
    rw [iterate_header_loop, hq]
    simp only [Res.bind_ok]
    cases q.1 with
    | true => exact ⟨_, rfl⟩
    | false => exact ih _ _ h2

/-- C10: header iteration short-circuits on failure. With a well-formed table
`iterate_header` returns. When it returns, the value is `RET_ERROR` if and only if
one of the sub-handlers it called returned `RET_ERROR`, and `RET_SUCCESS` otherwise;
no call but the last one returned `RET_ERROR`, so nothing is called after a failing
sub-handler; and the calls are the matching entries of the header lines, the lines
in list order, all of them when the value is `RET_SUCCESS` and the first ones up to
the failing call otherwise. -/
theorem iterate_header_short_circuits {σ : Type} (h_header : List linedata_t)
    (handlers : List (stomp_header_handler_t σ)) (data : σ) :
    (header_table_ok handlers h_header →
      ∃ r, iterate_header h_header handlers data = .ok r) ∧
    (∀ ret data1 calls, iterate_header h_header handlers data = .ok (ret, data1, calls) →
      (ret = RET_ERROR ↔ ∃ c ∈ calls, c.ret = RET_ERROR) ∧
      (ret = RET_ERROR ∨ ret = RET_SUCCESS) ∧
      (∀ c ∈ calls.dropLast, c.ret ≠ RET_ERROR) ∧
      calls.map header_call.key <+: all_matches handlers h_header ∧
      (ret = RET_SUCCESS → calls.map header_call.key = all_matches handlers h_header)) := by
  refine ⟨fun hwf => iterate_header_loop_returns handlers h_header data [] hwf, ?_⟩
  intro ret data1 calls h
  obtain ⟨new, e1, e2, e3, e4, e5⟩ := iterate_header_loop_ok handlers h_header data [] _ h
  simp only [List.nil_append] at e1
  subst e1
  have hne : RET_SUCCESS ≠ RET_ERROR := by decide
  by_cases hr : ret = RET_ERROR
  · obtain ⟨init, last, f1, f2, f3⟩ := e5 (by simp [hr])
    refine ⟨⟨fun _ => ⟨last, by simp [f1], f2⟩, fun _ => hr⟩, e2, ?_, e3, ?_⟩
    · rw [f1, List.dropLast_concat]
      exact f3
    · intro hs
      rw [hr] at hs
      exact absurd hs.symm hne
  · obtain ⟨g1, g2⟩ := e4 (by simp [hr])
    refine ⟨⟨fun h1 => absurd h1 hr, fun ⟨c, hc, hce⟩ => absurd hce (g1 c hc)⟩, e2, ?_, e3,
      fun _ => g2⟩
    intro c hc
    exact g1 c (List.mem_of_mem_dropLast hc)

/-- C10 at three header lines of which the second one fails: the third line is not
visited. -/
theorem iterate_header_short_circuits_witness :
    (RET_ERROR = RET_ERROR ↔
      ∃ c ∈ [({ entry := 0, arg := (padded 32 "accept-version:1.2".toList).drop 15,
                ret := RET_SUCCESS } : header_call),
             { entry := 1, arg := (padded 32 "host:localhost".toList).drop 5,
               ret := RET_ERROR }], c.ret = RET_ERROR) ∧
    (RET_ERROR = RET_ERROR ∨ RET_ERROR = RET_SUCCESS) ∧
    (∀ c ∈ [({ entry := 0, arg := (padded 32 "accept-version:1.2".toList).drop 15,
               ret := RET_SUCCESS } : header_call),
            { entry := 1, arg := (padded 32 "host:localhost".toList).drop 5,
              ret := RET_ERROR }].dropLast, c.ret ≠ RET_ERROR) ∧
    [({ entry := 0, arg := (padded 32 "accept-version:1.2".toList).drop 15,
        ret := RET_SUCCESS } : header_call),
     { entry := 1, arg := (padded 32 "host:localhost".toList).drop 5,
       ret := RET_ERROR }].map header_call.key <+: all_matches connect_headers three_headers ∧
    (RET_ERROR = RET_SUCCESS →
      [({ entry := 0, arg := (padded 32 "accept-version:1.2".toList).drop 15,
          ret := RET_SUCCESS } : header_call),
       { entry := 1, arg := (padded 32 "host:localhost".toList).drop 5,
         ret := RET_ERROR }].map header_call.key = all_matches connect_headers three_headers) :=
  (iterate_header_short_circuits three_headers connect_headers 0).2 RET_ERROR 101 _ (by decide)

/-! ## C11: every matching sub-handler is called -/

/-- C11: `iterate_header` does not stop at the first match. With the names
"accept" and "accept-version:" in the table, in that order, the one header line
"accept-version:1.2" gets both sub-handlers called, entry 0 and then entry 1: the
inner loop of `iterate_header` has no `break`, unlike the loop of `handle_frame`. -/
theorem iterate_header_calls_every_match :
    iterate_header [{ data := padded 32 "accept-version:1.2".toList }] overlapping_headers 0 =
      .ok (RET_SUCCESS, 2,
        [{ entry := 0, arg := (padded 32 "accept-version:1.2".toList).drop 6,
           ret := RET_SUCCESS },
         { entry := 1, arg := (padded 32 "accept-version:1.2".toList).drop 15,
           ret := RET_SUCCESS }]) := by
  decide

/-! ## C13: a failed allocation of a line node -/

/-- C13: a failed allocation of a line node is not reported and does not stop the
chunk. On a frame in the header phase, with the first `malloc` failing and the
second succeeding, the chunk "a\nb\n" makes `stomp_recv_data` return `RET_SUCCESS`
with the line b stored as a header: `frame_creating` drops the `RET_ERROR` of
`frame_setdata` and goes on with the next line. With a frame in the cache slot
every call that returns and has `len != 0` gives `RET_SUCCESS`. -/
theorem line_alloc_failure_ignored :
    stomp_recv_data 16 ("a".toList ++ [LF] ++ "b".toList ++ [LF, NUL]) 4 3
        (some header_frame) [] [false, true] =
      .ok (RET_SUCCESS,
        { cache := some { header_frame with h_attrs := [{ data := padded 16 "b".toList }] },
          bucket := [], heap := [] }) ∧
    frame_setdata 16 ("a".toList ++ [NUL]) 1 [] [false, true] = .ok (RET_ERROR, [], [true]) ∧
    ∀ (LD_MAX : Nat) (recv_data : List Char) (len : Int) (sock : Int) (frame : frame_t)
      (bucket : List frame_t) (heap : List Bool) (ret : Int) (st : recv_state),
      len ≠ 0 →
      stomp_recv_data LD_MAX recv_data len sock (some frame) bucket heap = .ok (ret, st) →
      ret = RET_SUCCESS := by
  refine ⟨by decide, by decide, ?_⟩
  intro LD_MAX recv_data len sock frame bucket heap ret st hlen h
  exact (stomp_recv_data_some_ne_zero LD_MAX recv_data len sock frame bucket heap ret st
    hlen h).1

/-! ## C18: the lines a chunk is split into -/

/-- C18: a chunk that starts with line terminators is not split into its non-empty
segments. On a frame in the header phase the chunk "\n\nabc\n" stores abc and then
c, a part of the same segment, and the chunk "a\n\nb\nc\n" stores a and b and never
c: the loop of `frame_creating` adds `strlen(line) + 1` to `pointer`, not to `line`,
so after `strtok` has skipped line terminators the next call starts inside or right
behind the token. -/
theorem split_after_skipped_terminators :
    stomp_recv_data 16 ([LF, LF] ++ "abc".toList ++ [LF, NUL]) 6 3 (some header_frame) [] [] =
      .ok (RET_SUCCESS,
        { cache := some { header_frame with
            h_attrs := [{ data := padded 16 "abc".toList }, { data := padded 16 "c".toList }] },
          bucket := [], heap := [] }) ∧
    stomp_recv_data 16 ("a".toList ++ [LF, LF] ++ "b".toList ++ [LF] ++ "c".toList ++ [LF, NUL])
        7 3 (some header_frame) [] [] =
      .ok (RET_SUCCESS,
        { cache := some { header_frame with
            h_attrs := [{ data := padded 16 "a".toList }, { data := padded 16 "b".toList }] },
          bucket := [], heap := [] }) := by
  decide

/-! ## C20: the end-of-frame chunk on an empty cache slot -/

theorem handle_frame_empty_name (frame : frame_t)
    (hn : frame.name = List.replicate FNAME_LEN NUL) : handle_frame frame = .ok [] := by
  have hlen : frame.name.length = FNAME_LEN := by rw [hn, List.length_replicate]
  have hc : cstr frame.name = [] := by rw [hn]; decide
  unfold handle_frame
  rw [handle_frame_scan_eq frame stomp_handlers (stomp_handlers_wf frame hlen),
    dispatch_first_match, first_match, hc]
  decide

/-- C20: an end-of-frame chunk on an empty cache slot still enqueues a frame. For
every bucket `Q` and every sock, the allocation succeeding, `stomp_recv_data` with
`len == 0` and an empty cache slot returns `RET_SUCCESS`, leaves the cache slot
empty and appends to `Q` one frame with a zeroed name, no header line, no body
line, that sock and the status `STATUS_IN_BUCKET`; `handle_frame` calls no handler
on this frame. -/
theorem eof_on_empty_slot (LD_MAX : Nat) (recv_data : List Char) (sock : Int)
    (Q : List frame_t) (heap : List Bool) (hm : (malloc heap).1 = true) :
    stomp_recv_data LD_MAX recv_data 0 sock none Q heap =
      .ok (RET_SUCCESS,
        { cache := none, bucket := Q ++ [empty_queued_frame sock], heap := (malloc heap).2 }) ∧
    cstr (empty_queued_frame sock).name = [] ∧
    (empty_queued_frame sock).h_attrs = [] ∧ (empty_queued_frame sock).h_data = [] ∧
    (empty_queued_frame sock).sock = sock ∧
    handle_frame (empty_queued_frame sock) = .ok [] := by
  refine ⟨?_, (by decide : cstr (List.replicate FNAME_LEN NUL) = []), rfl, rfl, rfl,
    handle_frame_empty_name _ rfl⟩
  rw [stomp_recv_data_none]
  unfold alloc_frame
  cases hm1 : malloc heap with
  | mk b heap1 =>
    rw [hm1] at hm
    simp only at hm
    subst hm
    simp only []
    rw [stomp_recv_data_some_zero]
    rfl

/-- C20 on an empty bucket, for the sock 3. -/
theorem eof_on_empty_slot_witness :
    stomp_recv_data 16 [NUL] 0 3 none [] [] =
      .ok (RET_SUCCESS,
        { cache := none, bucket := [] ++ [empty_queued_frame 3], heap := (malloc []).2 }) ∧
    cstr (empty_queued_frame 3).name = [] ∧
    (empty_queued_frame 3).h_attrs = [] ∧ (empty_queued_frame 3).h_data = [] ∧
    (empty_queued_frame 3).sock = 3 ∧
    handle_frame (empty_queued_frame 3) = .ok [] :=
  eof_on_empty_slot 16 [NUL] 3 [] [] rfl

/-! ## C17: one phase flag at a time -/

theorem status_ok_step (LD_MAX : Nat) (c : chunk) (st : recv_state) (r : Int × recv_state)
    (hok : status_ok st)
    (h : stomp_recv_data LD_MAX c.recv_data c.len c.sock st.cache st.bucket st.heap = .ok r) :
    status_ok r.2 := by
  obtain ⟨ret, st1⟩ := r
  obtain ⟨hcache, hbucket⟩ := hok
  have key : ∀ (f : frame_t) (heap1 : List Bool), assembling f.status →
      stomp_recv_data LD_MAX c.recv_data c.len c.sock (some f) st.bucket heap1 = .ok (ret, st1) →
      status_ok st1 := by
    intro f heap1 hph h
    by_cases hlen : c.len = 0
    · rw [hlen, stomp_recv_data_some_zero, Res.ok.injEq, Prod.mk.injEq] at h
      rw [← h.2]
      refine ⟨fun g hg => by simp at hg, ?_⟩
      intro g hg
      rcases List.mem_append.1 hg with hg | hg
      · exact hbucket g hg
      · rw [List.mem_singleton.1 hg]
    · have hbk := (stomp_recv_data_some_ne_zero LD_MAX c.recv_data c.len c.sock f
        st.bucket heap1 ret st1 hlen h).2.1
      refine ⟨?_, fun g hg => hbucket g (hbk ▸ hg)⟩
      by_cases hb : c.len = 1 ∧ c.recv_data.head? = some LF
      · obtain ⟨h1, h2⟩ := hb
        obtain ⟨x, xs, hx⟩ : ∃ x xs, c.recv_data = x :: xs := by
          cases hc : c.recv_data with
          | nil => simp [hc] at h2
          | cons x xs => exact ⟨x, xs, rfl⟩
        rw [hx] at h2 h
        simp only [List.head?_cons, Option.some.injEq] at h2
        rw [h1, h2, stomp_recv_data_boundary, Res.ok.injEq, Prod.mk.injEq] at h
        rw [← h.2]
        intro g hg
        simp only [Option.some.injEq] at hg
        rw [← hg]
        exact Or.inr (Or.inr rfl)
      · obtain ⟨g, hg, hgrow⟩ := stomp_recv_data_grows LD_MAX c.recv_data c.len c.sock f
          st.bucket heap1 ret st1 hph hlen hb h
        intro g1 hg1
        rw [hg, Option.some.injEq] at hg1
        rw [← hg1]
        exact hgrow.1
  cases hc : st.cache with
  | some f =>
    rw [hc] at h
    exact key f st.heap (hcache f hc) h
  | none =>
    rw [hc, stomp_recv_data_none] at h
    unfold alloc_frame at h
    cases hm : malloc st.heap with
    | mk b heap1 =>
      cases b with
      | false =>
        simp only [hm, Res.ok.injEq, Prod.mk.injEq] at h
        rw [← h.2]
        exact ⟨fun g hg => by simp at hg, hbucket⟩
      | true =>
        simp only [hm] at h
        exact key _ heap1 (Or.inl rfl) h

theorem status_ok_states (LD_MAX : Nat) (cs : List chunk) (st : recv_state)
    (hok : status_ok st) : ∀ s ∈ recv_states LD_MAX cs st, status_ok s := by
  induction cs generalizing st with
  | nil => simp [recv_states]
  | cons c cs ih =>
    rw [recv_states]
    cases h : stomp_recv_data LD_MAX c.recv_data c.len c.sock st.cache st.bucket st.heap with
    | ok r =>
      have h1 := status_ok_step LD_MAX c st r hok h
      intro s hs
      rcases List.mem_cons.1 hs with rfl | hs
      · exact h1
      · exact ih r.2 h1 s hs
    | fault => simp
    | timeout => simp

theorem status_ok_recv_all (LD_MAX : Nat) (cs : List chunk) (st st1 : recv_state)
    (hok : status_ok st) (h : recv_all LD_MAX cs st = .ok st1) : status_ok st1 := by
  induction cs generalizing st with
  | nil =>
    simp only [recv_all, Res.ok.injEq] at h
    rw [← h]
    exact hok
  | cons c cs ih =>
    rw [recv_all] at h
    cases hr : stomp_recv_data LD_MAX c.recv_data c.len c.sock st.cache st.bucket st.heap with
    | ok r =>
      simp only [hr, Res.bind_ok] at h
      exact ih r.2 (status_ok_step LD_MAX c st r hok hr) h
    | fault => simp [hr] at h
    | timeout => simp [hr] at h

/-- C17: exactly one phase flag at a time. Starting from an empty cache slot and a
bucket whose frames have the status `STATUS_IN_BUCKET` (the empty bucket of
`stomp_init`, or frames enqueued before), after every call of a sequence of calls
of `stomp_recv_data` the frame in the cache slot, when there is one, has a status
that is exactly `STATUS_BORN`, `STATUS_INPUT_HEADER` or `STATUS_INPUT_BODY`, and
every frame of the bucket has exactly `STATUS_IN_BUCKET`; the three flags are
single bits, different from each other and from `STATUS_IN_BUCKET`. -/
theorem one_phase_flag (LD_MAX : Nat) (cs : List chunk) (bucket : List frame_t)
    (heap : List Bool) (hb : ∀ f ∈ bucket, f.status = STATUS_IN_BUCKET) :
    (∀ s ∈ recv_states LD_MAX cs { cache := none, bucket := bucket, heap := heap },
      (∀ f, s.cache = some f → f.status = STATUS_BORN ∨ f.status = STATUS_INPUT_HEADER ∨
        f.status = STATUS_INPUT_BODY) ∧
      ∀ f ∈ s.bucket, f.status = STATUS_IN_BUCKET) ∧
    (∀ s, recv_all LD_MAX cs { cache := none, bucket := bucket, heap := heap } = .ok s →
      (∀ f, s.cache = some f → f.status = STATUS_BORN ∨ f.status = STATUS_INPUT_HEADER ∨
        f.status = STATUS_INPUT_BODY) ∧
      ∀ f ∈ s.bucket, f.status = STATUS_IN_BUCKET) ∧
    [STATUS_BORN, STATUS_INPUT_HEADER, STATUS_INPUT_BODY, STATUS_IN_BUCKET] = [1, 2, 4, 8] := by
  have h0 : status_ok { cache := none, bucket := bucket, heap := heap } :=
    ⟨fun f hf => by simp at hf, hb⟩
  exact ⟨fun s hs => status_ok_states LD_MAX cs _ h0 s hs,
    fun s hs => status_ok_recv_all LD_MAX cs _ s h0 hs, by decide⟩

/-- C17 for the chunks of the frame CONNECT with one header line and one body line,
followed by the first line of the next frame. -/
theorem one_phase_flag_witness :
    (∀ f, two_frames_state.cache = some f → f.status = STATUS_BORN ∨
      f.status = STATUS_INPUT_HEADER ∨ f.status = STATUS_INPUT_BODY) ∧
    ∀ f ∈ two_frames_state.bucket, f.status = STATUS_IN_BUCKET :=
  (one_phase_flag 16
    (frame_chunks 3 3 "CONNECT".toList ["host:localhost".toList] ["hello".toList] ++
      [line_chunk 3 "SEND".toList]) [] [] (by simp)).2.1 two_frames_state (by decide)

/-! ## C19: the table of commands is free of prefixes -/

theorem find_perm_unique {α : Type} (p : α → Bool) (l l1 : List α) (hperm : l.Perm l1)
    (huniq : ∀ a ∈ l, ∀ b ∈ l, p a = true → p b = true → a = b) :
    l1.find? p = l.find? p := by
  cases h : l.find? p with
  | none =>
    rw [List.find?_eq_none] at h ⊢
    exact fun x hx => h x (hperm.mem_iff.2 hx)
  | some a =>
    have ha : p a = true := List.find?_some h
    have hal : a ∈ l := List.mem_of_find?_eq_some h
    cases h1 : l1.find? p with
    | none =>
      rw [List.find?_eq_none] at h1
      exact absurd ha (h1 a (hperm.mem_iff.1 hal))
    | some b =>
      have hb : p b = true := List.find?_some h1
      have hbl : b ∈ l := hperm.mem_iff.2 (List.mem_of_find?_eq_some h1)
      rw [huniq a hal b hbl ha hb]

theorem stomp_handlers_pairwise :
    stomp_handlers.Pairwise fun a b =>
      ¬ cstr a.name <+: cstr b.name ∧ ¬ cstr b.name <+: cstr a.name := by
  decide

theorem stomp_handlers_unique_match (frame : frame_t) :
    ∀ a ∈ stomp_handlers, ∀ b ∈ stomp_handlers,
      (cstr a.name).isPrefixOf (cstr frame.name) = true →
      (cstr b.name).isPrefixOf (cstr frame.name) = true → a = b := by
  intro a ha b hb hpa hpb
  rw [List.isPrefixOf_iff_prefix] at hpa hpb
  have hor := List.prefix_or_prefix_of_prefix hpa hpb
  by_contra hne
  have hpw := stomp_handlers_pairwise
  have hsym : ∀ x y : stomp_handler_t handler_fn,
      (¬ cstr x.name <+: cstr y.name ∧ ¬ cstr y.name <+: cstr x.name) →
      (¬ cstr y.name <+: cstr x.name ∧ ¬ cstr x.name <+: cstr y.name) :=
    fun _ _ h => ⟨h.2, h.1⟩
  have := hpw.forall (fun {x y} h => hsym x y h) ha hb hne
  rcases hor with h | h
  · exact this.1 h
  · exact this.2 h

theorem filter_length_le_one {α : Type} (p : α → Bool) (l : List α) (hnd : l.Nodup)
    (huniq : ∀ a ∈ l, ∀ b ∈ l, p a = true → p b = true → a = b) :
    (l.filter p).length ≤ 1 := by
  have hnd1 : (l.filter p).Nodup := hnd.filter _
  cases hf : l.filter p with
  | nil => simp
  | cons x t =>
    cases t with
    | nil => simp
    | cons y t1 =>
      rw [hf] at hnd1
      have hx : x ∈ l.filter p := by rw [hf]; simp
      have hy : y ∈ l.filter p := by rw [hf]; simp
      rw [List.mem_filter] at hx hy
      have hxy := huniq x hx.1 y hy.1 hx.2 hy.2
      rw [hxy] at hnd1
      simp at hnd1

/-- C19: the command table is prefix-free. No name of `stomp_handlers` is a prefix
of the name of another entry; so for every frame at most one entry has a name that
is a prefix of the name of the frame, and the scan of `handle_frame` gives the same
calls on every reordering of the table. -/
theorem stomp_handlers_prefix_free (frame : frame_t)
    (handlers : List (stomp_handler_t handler_fn)) (hlen : frame.name.length = FNAME_LEN)
    (hperm : stomp_handlers.Perm handlers) :
    (stomp_handlers.Pairwise fun a b =>
      ¬ cstr a.name <+: cstr b.name ∧ ¬ cstr b.name <+: cstr a.name) ∧
    (matching_entries frame stomp_handlers).length ≤ 1 ∧
    handle_frame_scan frame handlers = handle_frame frame := by
  refine ⟨stomp_handlers_pairwise, ?_, ?_⟩
  · exact filter_length_le_one _ stomp_handlers (by decide)
      (stomp_handlers_unique_match frame)
  · have hwf := stomp_handlers_wf frame hlen
    unfold handle_frame
    rw [handle_frame_scan_eq frame stomp_handlers hwf,
      handle_frame_scan_eq frame handlers fun h hh => hwf h (hperm.mem_iff.2 hh)]
    unfold dispatch_first_match first_match
    rw [find_perm_unique _ stomp_handlers handlers hperm (stomp_handlers_unique_match frame)]

/-- C19 for the frame named CONNECT and the table in reverse order. -/
theorem stomp_handlers_prefix_free_witness :
    (stomp_handlers.Pairwise fun a b =>
      ¬ cstr a.name <+: cstr b.name ∧ ¬ cstr b.name <+: cstr a.name) ∧
    (matching_entries (named_frame "CONNECT") stomp_handlers).length ≤ 1 ∧
    handle_frame_scan (named_frame "CONNECT") stomp_handlers.reverse =
      handle_frame (named_frame "CONNECT") :=
  stomp_handlers_prefix_free (named_frame "CONNECT") stomp_handlers.reverse (by decide)
    (List.reverse_perm stomp_handlers).symm

/-! ## C15: one chunk of lines or one chunk a line -/

theorem memcpy_append (dst l r : List Char) :
    memcpy dst (l ++ r) l.length = memcpy dst l l.length := by
  simp [memcpy]

theorem frame_creating_line_append (LD_MAX : Nat) (l r : List Char) (frame : frame_t)
    (heap : List Bool) :
    frame_creating_line LD_MAX (l ++ r) l.length frame heap =
      frame_creating_line LD_MAX l l.length frame heap := by
  simp only [frame_creating_line, frame_setname, frame_setdata, memcpy_append]

theorem join_lines_length (lines : List (List Char)) :
    lines.length ≤ (join_lines lines).length := by
  induction lines with
  | nil => simp [join_lines]
  | cons l ls ih => simp only [join_lines, List.length_append, List.length_cons]; omega

theorem frame_creating_loop_lines (LD_MAX : Nat) (lines : List (List Char)) (fuel : Nat)
    (t : List Char) (frame : frame_t) (heap : List Bool) (hl : ∀ l ∈ lines, is_line l)
    (hfuel : lines.length < fuel) :
    frame_creating_loop LD_MAX fuel (join_lines lines ++ NUL :: t) frame heap =
      lines_run LD_MAX lines frame heap := by
  induction lines generalizing fuel frame heap with
  | nil =>
    obtain ⟨n, rfl⟩ : ∃ n, fuel = n + 1 := ⟨fuel - 1, by simp at hfuel; omega⟩
    simp [join_lines, frame_creating_loop, strtok_NUL, lines_run]
  | cons l ls ih =>
    obtain ⟨n, rfl⟩ : ∃ n, fuel = n + 1 := ⟨fuel - 1, by simp at hfuel; omega⟩
    have hline := hl l (List.mem_cons_self _ _)
    have hnul : ∀ c ∈ l, c ≠ NUL := fun c hc => (hline.2 c hc).2
    have hmem : join_lines (l :: ls) ++ NUL :: t = l ++ LF :: (join_lines ls ++ NUL :: t) := by
      simp [join_lines]
    rw [hmem, frame_creating_loop, strtok_line l _ LF hline (Or.inl rfl)]
    simp only [Res.bind_ok, List.drop_zero, strlen_append_NUL l _ hnul,
      frame_creating_line_append, lines_run]
    cases hr : frame_creating_line LD_MAX l l.length frame heap with
    | ok r =>
      have hdrop : (l ++ NUL :: (join_lines ls ++ NUL :: t)).drop (l.length + 1) =
          join_lines ls ++ NUL :: t := by
        rw [show l ++ NUL :: (join_lines ls ++ NUL :: t) =
          (l ++ [NUL]) ++ (join_lines ls ++ NUL :: t) by simp]
        rw [List.drop_append_of_le_length (by simp)]
        simp
      simp only [Res.bind_ok, hdrop]
      exact ih n r.1 r.2 (fun x hx => hl x (List.mem_cons_of_mem _ hx))
        (by simp at hfuel; omega)
    | fault => rfl
    | timeout => rfl

theorem recv_all_lines (LD_MAX : Nat) (sock : Int) (lines : List (List Char)) (frame : frame_t)
    (bucket : List frame_t) (heap : List Bool) (hl : ∀ l ∈ lines, is_line l) :
    recv_all LD_MAX (lines.map (line_chunk sock))
        { cache := some frame, bucket := bucket, heap := heap } =
      (lines_run LD_MAX lines frame heap).bind fun r =>
        .ok { cache := some r.1, bucket := bucket, heap := r.2 } := by
  induction lines generalizing frame heap with
  | nil => simp [recv_all, lines_run]
  | cons l ls ih =>
    have hline := hl l (List.mem_cons_self _ _)
    simp only [List.map_cons, recv_all, lines_run]
    rw [stomp_recv_data_line_chunk LD_MAX sock l frame bucket heap hline,
      frame_creating_line_append]
    cases hr : frame_creating_line LD_MAX l l.length frame heap with
    | ok r =>
      simp only [Res.bind_ok]
      exact ih r.1 r.2 fun x hx => hl x (List.mem_cons_of_mem _ hx)
    | fault => rfl
    | timeout => rfl

theorem stomp_recv_data_lines_chunk (LD_MAX : Nat) (sock : Int) (lines : List (List Char))
    (frame : frame_t) (bucket : List frame_t) (heap : List Bool) (hne : lines ≠ [])
    (hl : ∀ l ∈ lines, is_line l) :
    stomp_recv_data LD_MAX (lines_chunk sock lines).recv_data (lines_chunk sock lines).len
        (lines_chunk sock lines).sock (some frame) bucket heap =
      (lines_run LD_MAX lines frame heap).bind fun r =>
        .ok (RET_SUCCESS, { cache := some r.1, bucket := bucket, heap := r.2 }) := by
  obtain ⟨l, ls, rfl⟩ := List.exists_cons_of_ne_nil hne
  obtain ⟨x, xs, hx⟩ := List.exists_cons_of_ne_nil (hl l (List.mem_cons_self _ _)).1
  have hlen2 : 2 ≤ (join_lines (l :: ls)).length := by
    rw [hx]; simp only [join_lines, List.length_append, List.length_cons]; omega
  have h0 : (((join_lines (l :: ls)).length : Nat) : Int) ≠ 0 := by omega
  have h1 : (((join_lines (l :: ls)).length : Nat) : Int) ≠ 1 := by omega
  simp only [stomp_recv_data, is_boundary, lines_chunk, h0, h1, if_false, Res.bind_ok,
    Bool.false_eq_true]
  unfold frame_creating
  rw [show join_lines (l :: ls) ++ [NUL] = join_lines (l :: ls) ++ NUL :: [] from rfl,
    frame_creating_loop_lines LD_MAX (l :: ls) _ [] frame heap hl (by
      have := join_lines_length (l :: ls)
      simp only [List.length_append, List.length_cons, List.length_nil] at this ⊢
      omega)]

theorem lines_run_headers (LD_MAX : Nat) (hs : List (List Char)) (frame : frame_t)
    (heap : List Bool) (hst : frame.status = STATUS_INPUT_HEADER)
    (hh : ∀ b ∈ heap, b = true) (hhs : ∀ l ∈ hs, l.length < LD_MAX) :
    lines_run LD_MAX hs frame heap =
      .ok ({ frame with
              h_attrs := frame.h_attrs ++ hs.map fun l => { data := padded LD_MAX l } },
        heap.drop hs.length) := by
  induction hs generalizing frame heap with
  | nil => simp [lines_run]
  | cons l ls ih =>
    have hl := hhs l (List.mem_cons_self _ _)
    have h1 := frame_creating_line_header LD_MAX l [] frame heap hst hh (Nat.le_of_lt hl)
    rw [List.append_nil] at h1
    rw [lines_run, h1]
    simp only [Res.bind_ok]
    rw [ih { frame with h_attrs := frame.h_attrs ++ [{ data := padded LD_MAX l }] } _ hst
      (all_true_drop heap 1 hh) fun x hx => hhs x (List.mem_cons_of_mem _ hx)]
    simp [List.append_assoc, Nat.add_comm]

/-- C15: chunking does not matter for line-aligned input. For every frame in the
cache slot and every non-empty list of lines, each non-empty and free of the line
terminator, one call of `stomp_recv_data` with the chunk of all the lines, each
followed by the line terminator, leaves the state (the frame with its name, status,
headers and body lines, the bucket) that the calls with one chunk a line leave. On
a born frame, with lines shorter than their buffers and allocations succeeding, the
first line becomes the name and the other lines of the chunk are appended to the
headers. -/
theorem chunking_line_aligned (LD_MAX : Nat) (sock : Int) (lines : List (List Char))
    (frame : frame_t) (bucket : List frame_t) (heap : List Bool) (hne : lines ≠ [])
    (hl : ∀ l ∈ lines, is_line l) :
    ((stomp_recv_data LD_MAX (lines_chunk sock lines).recv_data (lines_chunk sock lines).len
        (lines_chunk sock lines).sock (some frame) bucket heap).bind fun r => .ok r.2) =
      recv_all LD_MAX (lines.map (line_chunk sock))
        { cache := some frame, bucket := bucket, heap := heap } ∧
    (∀ n hs, lines = n :: hs → frame.status = STATUS_BORN →
      frame.name = List.replicate FNAME_LEN NUL → n.length < FNAME_LEN →
      (∀ l ∈ hs, l.length < LD_MAX) → (∀ b ∈ heap, b = true) →
      stomp_recv_data LD_MAX (lines_chunk sock lines).recv_data (lines_chunk sock lines).len
          (lines_chunk sock lines).sock (some frame) bucket heap =
        .ok (RET_SUCCESS,
          { cache := some { frame with
              name := padded FNAME_LEN n, status := STATUS_INPUT_HEADER,
              h_attrs := frame.h_attrs ++ hs.map fun l => { data := padded LD_MAX l } },
            bucket := bucket, heap := heap.drop hs.length })) := by
  have hone := stomp_recv_data_lines_chunk LD_MAX sock lines frame bucket heap hne hl
  constructor
  · rw [hone, recv_all_lines LD_MAX sock lines frame bucket heap hl]
    cases lines_run LD_MAX lines frame heap <;> rfl
  · intro n hs hlines hst hname hn hhs hh
    rw [hone, hlines, lines_run]
    have h1 := frame_creating_line_born LD_MAX n [] frame heap hst hname (Nat.le_of_lt hn)
    rw [List.append_nil] at h1
    rw [h1]
    simp only [Res.bind_ok]
    rw [lines_run_headers LD_MAX hs _ heap rfl hh hhs]
    rfl

/-- C15 for the born frame of sock 3 and the lines CONNECT, accept-version:1.2 and
host:localhost. -/
theorem chunking_line_aligned_witness :
    ((stomp_recv_data 32
        (lines_chunk 3 ["CONNECT".toList, "accept-version:1.2".toList,
          "host:localhost".toList]).recv_data
        (lines_chunk 3 ["CONNECT".toList, "accept-version:1.2".toList,
          "host:localhost".toList]).len
        (lines_chunk 3 ["CONNECT".toList, "accept-version:1.2".toList,
          "host:localhost".toList]).sock
        (some { empty_queued_frame 3 with status := STATUS_BORN }) [] []).bind
          fun r => .ok r.2) =
      recv_all 32
        (["CONNECT".toList, "accept-version:1.2".toList, "host:localhost".toList].map
          (line_chunk 3))
        { cache := some { empty_queued_frame 3 with status := STATUS_BORN }, bucket := [],
          heap := [] } :=
  (chunking_line_aligned 32 3
    ["CONNECT".toList, "accept-version:1.2".toList, "host:localhost".toList]
    { empty_queued_frame 3 with status := STATUS_BORN } [] [] (by simp)
    (by
      intro l hl
      simp only [List.mem_cons, List.mem_singleton, List.not_mem_nil, or_false] at hl
      rcases hl with rfl | rfl | rfl <;> (unfold is_line; decide))).1

/-- The state that feeding the lines CONNECT, accept-version:1.2 and host:localhost
to a born frame leaves: the name CONNECT and two header lines. -/
theorem chunking_example :
    recv_all 32
        (["CONNECT".toList, "accept-version:1.2".toList, "host:localhost".toList].map
          (line_chunk 3))
        { cache := some { empty_queued_frame 3 with status := STATUS_BORN }, bucket := [],
          heap := [] } =
      .ok { cache := some { name := padded FNAME_LEN "CONNECT".toList, sock := 3,
                            status := STATUS_INPUT_HEADER,
                            h_attrs := [{ data := padded 32 "accept-version:1.2".toList },
                                        { data := padded 32 "host:localhost".toList }],
                            h_data := [] },
            bucket := [], heap := [] } := by
  decide

/-! ## C12: cleanup and the lines of a frame -/

theorem free_frame_no_lines (frame : frame_t) (linked : Bool) (bucket : List frame_t)
    (log : free_log) (ha : frame.h_attrs = []) (hd : frame.h_data = []) :
    free_frame frame linked bucket log =
      .ok (list_del linked bucket, { log with frames := log.frames ++ [frame] }) := by
  simp [free_frame, free_each_entry, ha, hd]

theorem free_frame_lines (frame : frame_t) (linked : Bool) (bucket : List frame_t)
    (log : free_log) (h : frame.h_attrs ≠ [] ∨ frame.h_data ≠ []) :
    free_frame frame linked bucket log = .fault := by
  unfold free_frame
  cases ha : frame.h_attrs with
  | cons a as => simp [free_each_entry]
  | nil =>
    cases hd : frame.h_data with
    | cons d ds => simp [free_each_entry]
    | nil => simp [ha, hd] at h

theorem cleanup_loop_no_lines (todo rest : List frame_t) (log : free_log)
    (h : ∀ f ∈ todo, f.h_attrs = [] ∧ f.h_data = []) :
    cleanup_loop todo (todo ++ rest) log =
      .ok (rest, { log with frames := log.frames ++ todo }) := by
  induction todo generalizing log with
  | nil => simp [cleanup_loop]
  | cons f fs ih =>
    obtain ⟨ha, hd⟩ := h f (List.mem_cons_self _ _)
    rw [cleanup_loop, free_frame_no_lines f true _ log ha hd]
    simp only [Res.bind_ok, list_del, if_true, List.cons_append, List.tail_cons]
    rw [ih _ fun x hx => h x (List.mem_cons_of_mem _ hx)]
    simp [List.append_assoc]

theorem cleanup_loop_lines (todo bucket : List frame_t) (log : free_log)
    (h : ∃ f ∈ todo, f.h_attrs ≠ [] ∨ f.h_data ≠ []) :
    cleanup_loop todo bucket log = .fault := by
  induction todo generalizing bucket log with
  | nil => simp at h
  | cons f fs ih =>
    rw [cleanup_loop]
    by_cases hf : f.h_attrs ≠ [] ∨ f.h_data ≠ []
    · rw [free_frame_lines f true bucket log hf]
      rfl
    · have ha : f.h_attrs = [] := by
        by_contra hne
        exact hf (Or.inl hne)
      have hd : f.h_data = [] := by
        by_contra hne
        exact hf (Or.inr hne)
      rw [free_frame_no_lines f true bucket log ha hd]
      simp only [Res.bind_ok]
      apply ih
      obtain ⟨g, hg, hgl⟩ := h
      rcases List.mem_cons.1 hg with rfl | hg
      · exact absurd hgl hf
      · exact ⟨g, hg, hgl⟩

/-- C12: `cleanup` does not drain a bucket whose frames have lines. On the bucket
that holds the frame CONNECT with the header line host:localhost and the body line
hello, `free_frame` frees the first header node and the step of the walk then reads
the link of that freed node: the run is undefined, and so it is for every bucket
with a frame that has a header line or a body line. Only when no frame of the
bucket has a line does `cleanup` return `RET_SUCCESS` with the bucket empty and
every frame freed once, in order. -/
theorem cleanup_use_after_free :
    cleanup two_frames_state.bucket { lines := [], frames := [] } = .fault ∧
    (∀ (bucket : List frame_t) (log : free_log),
      (∃ f ∈ bucket, f.h_attrs ≠ [] ∨ f.h_data ≠ []) → cleanup bucket log = .fault) ∧
    (∀ (bucket : List frame_t) (log : free_log),
      (∀ f ∈ bucket, f.h_attrs = [] ∧ f.h_data = []) →
      cleanup bucket log =
        .ok (RET_SUCCESS, [], { log with frames := log.frames ++ bucket })) := by
  refine ⟨by decide, ?_, ?_⟩
  · intro bucket log h
    rw [cleanup, cleanup_loop_lines bucket bucket log h]
    rfl
  · intro bucket log h
    have h1 := cleanup_loop_no_lines bucket [] log h
    rw [List.append_nil] at h1
    rw [cleanup, h1]
    rfl

/-! ## C16: one turn of the manager -/

theorem stomp_manager_step_cons (f : frame_t) (rest : List frame_t) (log : free_log) :
    stomp_manager_step (f :: rest) log =
      (handle_frame f).bind fun calls =>
        (free_frame f false rest log).bind fun q => .ok (calls, q.1, q.2) := by
  simp [stomp_manager_step, get_frame_from_bucket]

theorem stomp_manager_step_no_lines (f : frame_t) (rest : List frame_t) (log : free_log)
    (ha : f.h_attrs = []) (hd : f.h_data = []) :
    stomp_manager_step (f :: rest) log =
      (handle_frame f).bind fun calls =>
        .ok (calls, rest, { lines := log.lines, frames := log.frames ++ [f] }) := by
  rw [stomp_manager_step_cons]
  simp [free_frame_no_lines f false rest log ha hd, list_del]

/-- C16: one turn of the manager takes the head of the bucket, and stops on a
command that is not implemented. On a bucket `f :: rest` the turn passes `f` to
`handle_frame` and, when that call returns, to `free_frame`, and leaves `rest`: a
frame without lines is freed and the bucket is `rest`. On the empty bucket the turn
calls nothing and frees nothing. For a frame named SEND `handle_frame` calls
through the null `handler`, so the turn is undefined: the frame is not freed and
the frames behind it are not reached; a frame named CONNECT or UNKNOWNCMD in front
of it is consumed. -/
theorem manager_step_consumes_head :
    (∀ (f : frame_t) (rest : List frame_t) (log : free_log),
      stomp_manager_step (f :: rest) log =
        (handle_frame f).bind fun calls =>
          (free_frame f false rest log).bind fun q => .ok (calls, q.1, q.2)) ∧
    (∀ (f : frame_t) (rest : List frame_t) (log : free_log),
      f.h_attrs = [] → f.h_data = [] →
      stomp_manager_step (f :: rest) log =
        (handle_frame f).bind fun calls =>
          .ok (calls, rest, { lines := log.lines, frames := log.frames ++ [f] })) ∧
    (∀ log : free_log, stomp_manager_step [] log = .ok ([], [], log)) ∧
    stomp_manager_step [named_frame "SEND", named_frame "CONNECT"]
      { lines := [], frames := [] } = .fault ∧
    stomp_manager_turns 3 [named_frame "CONNECT", named_frame "UNKNOWNCMD"]
        { lines := [], frames := [] } =
      .ok ([[handler_fn.handler_stomp_connect], [], []], [],
        { lines := [], frames := [named_frame "CONNECT", named_frame "UNKNOWNCMD"] }) ∧
    stomp_manager_turns 3 [named_frame "CONNECT", named_frame "SEND", named_frame "CONNECT"]
      { lines := [], frames := [] } = .fault := by
  refine ⟨stomp_manager_step_cons, stomp_manager_step_no_lines, fun log => rfl, by decide,
    by decide, by decide⟩

end Stomp
